import Mathlib

/-
  Verification development for the grabarr orchestration core.

  Shallow embedding of the Python source under backend/app/ :
  - runner.py     (JobRunner: admission control, cooldown, dispatch, monitor,
                   history pruning, action pipeline, connection strings)
  - browse_sessions.py (BrowseSessionManager: sessions with idle expiry)

  Python dicts keyed by job id are modelled as association lists with a
  first-occurrence lookup; a dict produced only by the operations below never
  holds a duplicate key, so first-occurrence semantics coincide with dict
  semantics.  Machine integers are Int (Python ints are unbounded).
  Effectful collaborators (DB reads, the rclone daemon, credential decryption,
  HTTP calls) enter the model as explicit inputs or function parameters; the
  control flow around them is translated from the source.
-/

namespace Grabarr

/-- Replace the first binding of key k (Python dict assignment d[k] = v);
appends when k is absent. -/
def dictSet {κ α : Type} [DecidableEq κ] : List (κ × α) → κ → α → List (κ × α)
  | [], k, v => [(k, v)]
  | (k', v') :: rest, k, v =>
    if k' = k then (k, v) :: rest else (k', v') :: dictSet rest k v

/-- Remove every binding of key k (Python del d[k]; a dict holds k at most
once). -/
def dictDel {κ α : Type} [DecidableEq κ] (m : List (κ × α)) (k : κ) : List (κ × α) :=
  m.filter (fun p => decide (p.1 ≠ k))

theorem lookup_dictSet_self {κ α : Type} [DecidableEq κ] (m : List (κ × α)) (k : κ) (v : α) :
    List.lookup k (dictSet m k v) = some v := by
  induction m with
  | nil => simp [dictSet, List.lookup]
  | cons p rest ih =>
    obtain ⟨k', v'⟩ := p
    by_cases h : k' = k
    · simp [dictSet, h, List.lookup]
    · have hbeq : (k == k') = false := by
        simp only [beq_eq_false_iff_ne, ne_eq]
        exact fun hk => h hk.symm
      simp [dictSet, if_neg h, List.lookup, hbeq, ih]

theorem lookup_dictDel_self {κ α : Type} [DecidableEq κ] (m : List (κ × α)) (k : κ) :
    List.lookup k (dictDel m k) = none := by
  induction m with
  | nil => simp [dictDel]
  | cons p rest ih =>
    obtain ⟨k', v'⟩ := p
    by_cases h : k' = k
    · simpa [dictDel, h] using ih
    · have hbeq : (k == k') = false := by
        simp only [beq_eq_false_iff_ne, ne_eq]
        exact fun hk => h hk.symm
      simpa [dictDel, h, List.lookup, hbeq] using ih

theorem lookup_mem {κ α : Type} [DecidableEq κ] {m : List (κ × α)} {k : κ} {v : α}
    (h : List.lookup k m = some v) : (k, v) ∈ m := by
  induction m with
  | nil => simp [List.lookup] at h
  | cons p rest ih =>
    obtain ⟨k', v'⟩ := p
    by_cases hk : k == k'
    · simp only [List.lookup, hk] at h
      have hkk : k = k' := by simpa [beq_iff_eq] using hk
      simp only [Option.some.injEq] at h
      subst hkk; subst h
      exact List.mem_cons_self _ _
    · simp only [Bool.not_eq_true] at hk
      simp only [List.lookup, hk] at h
      exact List.mem_cons_of_mem _ (ih h)

theorem mem_dictSet {κ α : Type} [DecidableEq κ] {m : List (κ × α)} {k : κ} {v : α}
    {p : κ × α} (hp : p ∈ dictSet m k v) : p ∈ m ∨ p = (k, v) := by
  induction m with
  | nil => exact Or.inr (by simpa [dictSet] using hp)
  | cons q rest ih =>
    obtain ⟨qk, qv⟩ := q
    by_cases h : qk = k
    · simp only [dictSet, if_pos h] at hp
      rcases List.mem_cons.mp hp with h1 | h1
      · right; exact h1
      · left; exact List.mem_cons_of_mem _ h1
    · simp only [dictSet, if_neg h] at hp
      rcases List.mem_cons.mp hp with h1 | h1
      · left; rw [h1]; exact List.mem_cons_self _ _
      · rcases ih h1 with h2 | h2
        · left; exact List.mem_cons_of_mem _ h2
        · right; exact h2

theorem mem_dictDel {κ α : Type} [DecidableEq κ] {m : List (κ × α)} {k : κ}
    {p : κ × α} (hp : p ∈ dictDel m k) : p ∈ m :=
  (List.mem_filter.mp hp).1

theorem mem_dictDel_ne {κ α : Type} [DecidableEq κ] {m : List (κ × α)} {k : κ}
    {p : κ × α} (hp : p ∈ dictDel m k) : p.1 ≠ k := by
  have := (List.mem_filter.mp hp).2
  simpa using this

/-! ## Active-instance counters (runner.py lines 49-62)

JobRunner.active_job_counts maps a db job id to the number of running
instances.  Counts are Python ints, modelled as Int. -/

/-- JobRunner._get_active_count: active_job_counts.get(job_id, 0). -/
def getActiveCount (m : List (Nat × Int)) (jobId : Nat) : Int :=
  (List.lookup jobId m).getD 0

/-- JobRunner._increment_active_count. -/
def incrementActiveCount (m : List (Nat × Int)) (jobId : Nat) : List (Nat × Int) :=
  dictSet m jobId (getActiveCount m jobId + 1)

/-- JobRunner._decrement_active_count: stores max(0, c-1), then deletes the key
when the stored count is zero. -/
def decrementActiveCount (m : List (Nat × Int)) (jobId : Nat) : List (Nat × Int) :=
  match List.lookup jobId m with
  | none => m
  | some c =>
    if max 0 (c - 1) = 0 then dictDel (dictSet m jobId (max 0 (c - 1))) jobId
    else dictSet m jobId (max 0 (c - 1))

/-- Every stored count is strictly positive. -/
def CountInvariant (m : List (Nat × Int)) : Prop :=
  ∀ p ∈ m, 0 < p.2

/-- One step of the counter state machine. -/
inductive CountOp
  | inc (jobId : Nat)
  | dec (jobId : Nat)

def applyCountOp (m : List (Nat × Int)) : CountOp → List (Nat × Int)
  | .inc j => incrementActiveCount m j
  | .dec j => decrementActiveCount m j

def applyCountOps (m : List (Nat × Int)) : List CountOp → List (Nat × Int)
  | [] => m
  | op :: ops => applyCountOps (applyCountOp m op) ops

theorem getActiveCount_nonneg {m : List (Nat × Int)} (h : CountInvariant m) (jobId : Nat) :
    0 ≤ getActiveCount m jobId := by
  unfold getActiveCount
  cases hl : List.lookup jobId m with
  | none => simp
  | some c =>
    have hmem : (jobId, c) ∈ m := lookup_mem hl
    have := h _ hmem
    simpa using le_of_lt this

theorem countInvariant_increment {m : List (Nat × Int)} (h : CountInvariant m) (jobId : Nat) :
    CountInvariant (incrementActiveCount m jobId) := by
  intro p hp
  rcases mem_dictSet hp with h1 | h1
  · exact h _ h1
  · have hge := getActiveCount_nonneg h jobId
    rw [h1]
    simp only []
    omega

theorem countInvariant_decrement {m : List (Nat × Int)} (h : CountInvariant m) (jobId : Nat) :
    CountInvariant (decrementActiveCount m jobId) := by
  unfold decrementActiveCount
  cases hl : List.lookup jobId m with
  | none => exact h
  | some c =>
    by_cases hc : max 0 (c - 1) = 0
    · simp only [hc, if_pos rfl]
      intro p hp
      have hne : p.1 ≠ jobId := mem_dictDel_ne hp
      rcases mem_dictSet (mem_dictDel hp) with h1 | h1
      · exact h _ h1
      · exact absurd (by rw [h1]) hne
    · simp only [if_neg hc]
      intro p hp
      rcases mem_dictSet hp with h1 | h1
      · exact h _ h1
      · rw [h1]; simp only []; omega

theorem countInvariant_apply {m : List (Nat × Int)} (h : CountInvariant m) (op : CountOp) :
    CountInvariant (applyCountOp m op) := by
  cases op with
  | inc j => exact countInvariant_increment h j
  | dec j => exact countInvariant_decrement h j

theorem countInvariant_applyOps {m : List (Nat × Int)} (h : CountInvariant m)
    (ops : List CountOp) : CountInvariant (applyCountOps m ops) := by
  induction ops generalizing m with
  | nil => exact h
  | cons op ops ih => exact ih (countInvariant_apply h op)

/-- Claim C10: the per-job active-instance counter map keeps every stored count
strictly positive and every read non-negative after any interleaving of
increments and decrements (decrements clamp at zero and drop the key at zero;
reads of absent keys yield 0). -/
theorem C10_counter_invariant (ops : List CountOp) (m : List (Nat × Int))
    (h : CountInvariant m) :
    CountInvariant (applyCountOps m ops)
    ∧ (∀ jobId, 0 ≤ getActiveCount (applyCountOps m ops) jobId)
    ∧ (∀ jobId, List.lookup jobId (applyCountOps m ops) = none →
        getActiveCount (applyCountOps m ops) jobId = 0) :=
  ⟨countInvariant_applyOps h ops,
   fun jobId => getActiveCount_nonneg (countInvariant_applyOps h ops) jobId,
   fun jobId hnone => by simp [getActiveCount, hnone]⟩

/-- Claim C10 witness at a concrete op sequence (a decrement without matching
increment, two increments, a decrement). -/
theorem C10_counter_invariant_witness :
    CountInvariant ([] : List (Nat × Int))
    ∧ CountInvariant (applyCountOps [] [.dec 5, .inc 5, .inc 5, .dec 5])
    ∧ (∀ jobId, 0 ≤ getActiveCount (applyCountOps [] [.dec 5, .inc 5, .inc 5, .dec 5]) jobId) := by
  have hinv : CountInvariant ([] : List (Nat × Int)) := by
    intro p hp; simp at hp
  exact ⟨hinv,
    (C10_counter_invariant [.dec 5, .inc 5, .inc 5, .dec 5] [] hinv).1,
    (C10_counter_invariant [.dec 5, .inc 5, .inc 5, .dec 5] [] hinv).2.1⟩

/-! ## Data model (models.py) and job history pruning (runner.py lines 474-499) -/

/-- Snapshot of a job's configuration captured at dispatch time
(runner.py lines 415-435). -/
structure JobSnapshot where
  name : String
  operation : String
  sourceRemoteId : Nat
  sourceRemoteName : String
  destRemoteId : Nat
  destRemoteName : String
  sourcePath : String
  destPath : String
  transferMethod : String
  copyMode : String
  excludes : List String
  scheduleName : String
  scheduleId : Option Nat
  allowConcurrentRuns : Bool
  maxConcurrentRuns : Option Int
  useChecksum : Bool
  sequentialTransfer : Bool
  preserveMetadata : Bool
  executionType : String
deriving DecidableEq

/-- Raw stats payload from core/stats, restricted to the fields the runner
reads. -/
structure Stats where
  speed : Int := 0
  bytes : Int := 0
  elapsedTime : Int := 0
  totalBytes : Int := 0
  transferring : List String := []
  lastFile : Option String := none
deriving DecidableEq

/-- Raw job/status payload from the daemon (finished is true whenever the
monitor takes its completion branch). -/
structure StatusPayload where
  success : Bool
  error : Option String := none
deriving DecidableEq

/-- The details column of a JobHistory row is either an error dict
("error": msg) or the raw job/status payload. -/
inductive HistoryDetails
  | errorMsg (msg : String)
  | payload (st : StatusPayload)
deriving DecidableEq

/-- One JobHistory row (models.py lines 80-93). -/
structure HistoryRow where
  id : Nat
  jobId : Nat
  status : String
  details : HistoryDetails
  timestamp : Int
  avgSpeed : Option Int := none
  filesTransferred : Option (List String) := none
  jobSnapshot : Option JobSnapshot := none
  startedAt : Option Int := none
  completedAt : Option Int := none
deriving DecidableEq

/-- Ordering by the timestamp column (ORDER BY timestamp ASC). -/
def tsLE (a b : HistoryRow) : Prop := a.timestamp ≤ b.timestamp

instance : DecidableRel tsLE := fun a b => inferInstanceAs (Decidable (a.timestamp ≤ b.timestamp))

instance : IsTotal HistoryRow tsLE := ⟨fun a b => le_total a.timestamp b.timestamp⟩

instance : IsTrans HistoryRow tsLE := ⟨fun _ _ _ h1 h2 => le_trans h1 h2⟩

/-- JobRunner._prune_history: when the global row count exceeds
max_history_entries, select the ids of the oldest excess rows (ordered by
timestamp ascending) and delete exactly those rows. -/
def pruneHistory (history : List HistoryRow) (maxEntries : Nat) : List HistoryRow :=
  if history.length > maxEntries then
    let entriesToDelete := history.length - maxEntries
    let idsToDelete := ((List.insertionSort tsLE history).take entriesToDelete).map (fun r => r.id)
    history.filter (fun r => decide (r.id ∉ idsToDelete))
  else history

theorem pruneHistory_le {history : List HistoryRow} {maxEntries : Nat}
    (h : history.length ≤ maxEntries) : pruneHistory history maxEntries = history := by
  unfold pruneHistory
  rw [if_neg (by omega)]

theorem filter_not_mem_append (pre post : List HistoryRow)
    (hnodup : ((pre ++ post).map (fun r => r.id)).Nodup) :
    (pre ++ post).filter (fun r => decide (r.id ∉ pre.map (fun r => r.id))) = post := by
  rw [List.filter_append]
  have htake : pre.filter
      (fun r => decide (r.id ∉ pre.map (fun r => r.id))) = [] := by
    apply List.filter_eq_nil_iff.mpr
    intro r hr
    simp only [decide_eq_true_eq, Decidable.not_not]
    exact List.mem_map_of_mem _ hr
  rw [List.map_append] at hnodup
  have hdisj := List.disjoint_of_nodup_append hnodup
  have hdrop : post.filter
      (fun r => decide (r.id ∉ pre.map (fun r => r.id))) = post := by
    apply List.filter_eq_self.mpr
    intro r hr
    simp only [decide_eq_true_eq]
    exact fun hid => hdisj hid (List.mem_map_of_mem _ hr)
  rw [htake, hdrop, List.nil_append]

theorem filter_id_not_mem_take (l : List HistoryRow) (n : Nat)
    (hnodup : (l.map (fun r => r.id)).Nodup) :
    l.filter (fun r => decide (r.id ∉ (l.take n).map (fun r => r.id))) = l.drop n := by
  have h := filter_not_mem_append (l.take n) (l.drop n)
    (by rw [List.take_append_drop]; exact hnodup)
  rw [List.take_append_drop] at h
  exact h

theorem pruneHistory_gt {history : List HistoryRow} {maxEntries : Nat}
    (hsorted : List.Sorted tsLE history)
    (hnodup : (history.map (fun r => r.id)).Nodup)
    (h : maxEntries < history.length) :
    pruneHistory history maxEntries = history.drop (history.length - maxEntries) := by
  unfold pruneHistory
  rw [if_pos (by omega)]
  simp only [hsorted.insertionSort_eq]
  exact filter_id_not_mem_take history (history.length - maxEntries) hnodup

/-- Claim C6: when the total number of JobHistory rows exceeds the ceiling,
pruning deletes exactly the oldest excess rows (by timestamp ascending),
leaving exactly maxEntries rows; at or below the ceiling it deletes nothing. -/
theorem C6_prune_exact (history : List HistoryRow) (maxEntries : Nat)
    (hsorted : List.Sorted tsLE history)
    (hnodup : (history.map (fun r => r.id)).Nodup) :
    (history.length ≤ maxEntries → pruneHistory history maxEntries = history)
    ∧ (maxEntries < history.length →
        pruneHistory history maxEntries = history.drop (history.length - maxEntries)
        ∧ (pruneHistory history maxEntries).length = maxEntries) := by
  refine ⟨fun h => pruneHistory_le h, fun h => ⟨pruneHistory_gt hsorted hnodup h, ?_⟩⟩
  rw [pruneHistory_gt hsorted hnodup h, List.length_drop]
  omega

def sampleRow (i : Nat) (ts : Int) : HistoryRow :=
  { id := i, jobId := 1, status := "success", details := .errorMsg "", timestamp := ts }

/-- Claim C6 witness: three sorted rows with ceiling 2 lose exactly the oldest
row. -/
theorem C6_prune_exact_witness :
    List.Sorted tsLE [sampleRow 1 10, sampleRow 2 20, sampleRow 3 30]
    ∧ (([sampleRow 1 10, sampleRow 2 20, sampleRow 3 30].map (fun r => r.id)).Nodup)
    ∧ (2 < ([sampleRow 1 10, sampleRow 2 20, sampleRow 3 30] : List HistoryRow).length →
        pruneHistory [sampleRow 1 10, sampleRow 2 20, sampleRow 3 30] 2
          = [sampleRow 1 10, sampleRow 2 20, sampleRow 3 30].drop 1
        ∧ (pruneHistory [sampleRow 1 10, sampleRow 2 20, sampleRow 3 30] 2).length = 2) := by
  have hs : List.Sorted tsLE [sampleRow 1 10, sampleRow 2 20, sampleRow 3 30] := by
    unfold tsLE sampleRow
    decide
  have hd : (([sampleRow 1 10, sampleRow 2 20, sampleRow 3 30].map (fun r => r.id)).Nodup) := by
    unfold sampleRow
    decide
  exact ⟨hs, hd, fun h =>
    (C6_prune_exact [sampleRow 1 10, sampleRow 2 20, sampleRow 3 30] 2 hs hd).2 h⟩

/-! ## Action pipeline (runner.py lines 79-110)

JobRunner._execute_actions loads the JobAction rows of one job and trigger
ordered ascending by the order column, and runs each associated action inside
a per-action try/except; a raised exception is logged and the loop continues.
The executor itself returns normally (the whole body sits in one more
try/except), so an action failure never escalates to run level.  The effectful
body of a single action (_process_action) enters as the parameter run. -/

structure ActionRow where
  id : Nat
  name : String
  type : String
  config : List (String × String)
deriving DecidableEq

structure JobActionRow where
  id : Nat
  jobId : Nat
  actionId : Nat
  trigger : String
  order : Int
  action : Option ActionRow
deriving DecidableEq

def jaLE (a b : JobActionRow) : Prop := a.order ≤ b.order

instance : DecidableRel jaLE := fun a b => inferInstanceAs (Decidable (a.order ≤ b.order))

instance : IsTotal JobActionRow jaLE := ⟨fun a b => le_total a.order b.order⟩

instance : IsTrans JobActionRow jaLE := ⟨fun _ _ _ h1 h2 => le_trans h1 h2⟩

/-- The SELECT ... WHERE job_id = ? AND trigger = ? ORDER BY "order". -/
def selectJobActions (rows : List JobActionRow) (jobId : Nat) (trigger : String) :
    List JobActionRow :=
  List.insertionSort jaLE
    (rows.filter (fun ja => decide (ja.jobId = jobId) && decide (ja.trigger = trigger)))

/-- Result of one action execution: its order, the action id, and the caught
exception if it raised. -/
structure AResult where
  order : Int
  actionId : Nat
  error : Option String
deriving DecidableEq

def errOf : Except String Unit → Option String
  | .ok _ => none
  | .error e => some e

/-- JobRunner._execute_actions. -/
def executeActions (rows : List JobActionRow) (jobId : Nat) (trigger : String)
    (run : ActionRow → Except String Unit) : List AResult :=
  (selectJobActions rows jobId trigger).foldl
    (fun acc ja =>
      match ja.action with
      | none => acc
      | some a => acc ++ [⟨ja.order, a.id, errOf (run a)⟩]) []

def runEntry (run : ActionRow → Except String Unit) (ja : JobActionRow) : Option AResult :=
  ja.action.map (fun a => ⟨ja.order, a.id, errOf (run a)⟩)

theorem executeActions_eq_filterMap (rows : List JobActionRow) (jobId : Nat)
    (trigger : String) (run : ActionRow → Except String Unit) :
    executeActions rows jobId trigger run
      = (selectJobActions rows jobId trigger).filterMap (runEntry run) := by
  unfold executeActions
  generalize selectJobActions rows jobId trigger = l
  suffices h : ∀ (l : List JobActionRow) (acc : List AResult),
      l.foldl (fun acc ja => match ja.action with
        | none => acc
        | some a => acc ++ [⟨ja.order, a.id, errOf (run a)⟩]) acc
      = acc ++ l.filterMap (runEntry run) by
    simpa using h l []
  intro l
  induction l with
  | nil => intro acc; simp
  | cons ja l ih =>
    intro acc
    cases hja : ja.action with
    | none => simp [List.foldl_cons, hja, runEntry, List.filterMap_cons, ih]
    | some a => simp [List.foldl_cons, hja, runEntry, List.filterMap_cons, ih]

theorem pairwise_filterMap_of_pairwise {α β : Type} {R : α → α → Prop} {S : β → β → Prop}
    (f : α → Option β) (hf : ∀ a b x y, R a b → f a = some x → f b = some y → S x y) :
    ∀ {l : List α}, l.Pairwise R → (l.filterMap f).Pairwise S := by
  intro l hl
  induction hl with
  | nil => simp
  | @cons a l ha _ ih =>
    rw [List.filterMap_cons]
    cases hfa : f a with
    | none => exact ih
    | some x =>
      refine List.Pairwise.cons ?_ ih
      intro y hy
      obtain ⟨b, hb, hfb⟩ := List.mem_filterMap.mp hy
      exact hf a b x y (ha b hb) hfa hfb

theorem executed_independent_of_run (rows : List JobActionRow) (jobId : Nat) (trigger : String)
    (run : ActionRow → Except String Unit) :
    (executeActions rows jobId trigger run).map (fun r => (r.order, r.actionId))
      = (selectJobActions rows jobId trigger).filterMap
          (fun ja => ja.action.map (fun a => (ja.order, a.id))) := by
  rw [executeActions_eq_filterMap, List.map_filterMap]
  apply List.filterMap_congr
  intro ja _
  cases hja : ja.action <;> simp [runEntry, hja]

/-- Claim C7: execute_actions runs a job's actions for a trigger in ascending
order of the JobAction order field; an exception from one action is caught and
does not prevent the remaining actions (the set of executed actions is
independent of which actions raise), and the executor returns normally. -/
theorem C7_actions_order_and_isolation (rows : List JobActionRow) (jobId : Nat)
    (trigger : String) (run run' : ActionRow → Except String Unit) :
    ((executeActions rows jobId trigger run).map (fun r => (r.order, r.actionId))
      = (executeActions rows jobId trigger run').map (fun r => (r.order, r.actionId)))
    ∧ (executeActions rows jobId trigger run).Pairwise (fun r s => r.order ≤ s.order)
    ∧ (∀ ja ∈ rows, ja.jobId = jobId → ja.trigger = trigger →
        ∀ a, ja.action = some a →
          (⟨ja.order, a.id, errOf (run a)⟩ : AResult) ∈ executeActions rows jobId trigger run) := by
  refine ⟨?_, ?_, ?_⟩
  · rw [executed_independent_of_run, executed_independent_of_run]
  · rw [executeActions_eq_filterMap]
    have hsorted : (selectJobActions rows jobId trigger).Pairwise jaLE :=
      List.sorted_insertionSort jaLE _
    refine pairwise_filterMap_of_pairwise _ ?_ hsorted
    intro ja jb x y hR hx hy
    unfold runEntry at hx hy
    cases hja : ja.action with
    | none => rw [hja] at hx; simp at hx
    | some a =>
      cases hjb : jb.action with
      | none => rw [hjb] at hy; simp at hy
      | some b =>
        rw [hja] at hx; rw [hjb] at hy
        simp only [Option.map_some', Option.some.injEq] at hx hy
        rw [← hx, ← hy]
        exact hR
  · intro ja hja hjid htr a ha
    rw [executeActions_eq_filterMap]
    apply List.mem_filterMap.mpr
    refine ⟨ja, ?_, by simp [runEntry, ha]⟩
    unfold selectJobActions
    rw [List.mem_insertionSort]
    apply List.mem_filter.mpr
    exact ⟨hja, by simp [hjid, htr]⟩

def sampleAction (i : Nat) : ActionRow := { id := i, name := "a", type := "webhook", config := [] }

def sampleJA (i : Nat) (ord : Int) : JobActionRow :=
  { id := i, jobId := 7, actionId := i, trigger := "pre", order := ord,
    action := some (sampleAction i) }

/-- Claim C7 witness: two pre-trigger actions where the first raises; the
second still appears in the execution results. -/
theorem C7_actions_order_and_isolation_witness :
    sampleJA 2 5 ∈ [sampleJA 1 1, sampleJA 2 5]
    ∧ (sampleJA 2 5).jobId = 7 ∧ (sampleJA 2 5).trigger = "pre"
    ∧ (sampleJA 2 5).action = some (sampleAction 2)
    ∧ (⟨(sampleJA 2 5).order, (sampleAction 2).id,
        errOf ((fun a => if a.id = 1 then Except.error "boom" else Except.ok ()) (sampleAction 2))⟩ : AResult)
        ∈ executeActions [sampleJA 1 1, sampleJA 2 5] 7 "pre"
            (fun a => if a.id = 1 then Except.error "boom" else Except.ok ()) := by
  refine ⟨by simp [sampleJA], rfl, rfl, rfl, ?_⟩
  exact (C7_actions_order_and_isolation [sampleJA 1 1, sampleJA 2 5] 7 "pre"
      (fun a => if a.id = 1 then Except.error "boom" else Except.ok ())
      (fun _ => Except.ok ())).2.2
    (sampleJA 2 5) (by simp [sampleJA]) rfl rfl (sampleAction 2) rfl

/-! ## String helpers mirroring Python str.rstrip/lstrip/strip with the "/"
argument -/

def rstripSlash (s : String) : String :=
  ⟨(s.data.reverse.dropWhile (fun c => c = '/')).reverse⟩

def lstripSlash (s : String) : String :=
  ⟨s.data.dropWhile (fun c => c = '/')⟩

def stripSlash (s : String) : String :=
  ⟨((s.data.dropWhile (fun c => c = '/')).reverse.dropWhile (fun c => c = '/')).reverse⟩

/-! ## Connection-String Resolver (runner.py lines 657-802)

get_fs_string builds the backend address for a remote.  The decrypted
credential payload enters as an optional key-value map (decrypt_credential_data
is an external collaborator), and the daemon's core/obscure call enters as the
obscure parameter; _obscure returns "" for an empty password without calling
the daemon.  sftp_chunk_size and sftp_concurrency are the system settings read
in the sftp branch. -/

def cfgGet (config : List (String × String)) (key : String) (dflt : String) : String :=
  (List.lookup key config).getD dflt

structure RemoteRow where
  id : Nat
  name : String
  type : String
  credentialId : Option Nat
  config : List (String × String)
deriving DecidableEq

def obscureOrEmpty (obscure : String → String) (password : String) : String :=
  if password = "" then "" else obscure password

/-- cred_data.get("user", "") or cred_data.get("username", ""). -/
def credGetUser (cred : List (String × String)) : String :=
  let u := cfgGet cred "user" ""
  if u ≠ "" then u else cfgGet cred "username" ""

/-- JobRunner.get_fs_string.  The source ends with
raise ValueError("Unsupported remote type: ...") after the generic branch,
but both arms of that branch return first, so every type other than
local/s3/http/webdav falls into the generic connection-string builder and the
raise is unreachable; the model reflects the reachable behaviour. -/
def get_fs_string (remote : RemoteRow) (cred : Option (List (String × String)))
    (obscure : String → String) (sftpChunkSize sftpConcurrency : Int) :
    Except String String :=
  if remote.type = "local" then
    .ok (cfgGet remote.config "path" "/")
  else if remote.type = "s3" then
    let provider := cfgGet remote.config "provider" "AWS"
    let endpoint := cfgGet remote.config "endpoint" ""
    let region := cfgGet remote.config "region" ""
    let bucket := cfgGet remote.config "bucket" ""
    let params := ["provider=" ++ provider]
    let params := match cred with
      | some data =>
        let access := cfgGet data "access_key_id" ""
        let secret := cfgGet data "secret_access_key" ""
        let params := if access ≠ "" then
            params ++ ["access_key_id=\x27" ++ access ++ "\x27"] else params
        if secret ≠ "" then
          params ++ ["secret_access_key=\x27" ++ secret ++ "\x27"] else params
      | none => params ++ ["env_auth=false"]
    let params := if endpoint ≠ "" then
        params ++ ["endpoint=\x27" ++ endpoint ++ "\x27"] else params
    let params := if region ≠ "" then
        params ++ ["region=\x27" ++ region ++ "\x27"] else params
    let params := if provider ≠ "AWS" then params ++ ["force_path_style=true"] else params
    .ok (":s3," ++ String.intercalate "," params ++ ":" ++ bucket)
  else if remote.type = "http" then
    let url := cfgGet remote.config "url" ""
    if url = "" then .error "HTTP remote requires a URL"
    else
      let params := ["url=\x27" ++ url ++ "\x27"]
      let noHead := cfgGet remote.config "no_head" "false"
      let params := if noHead = "true" then params ++ ["no_head=\x27true\x27"] else params
      .ok (":http," ++ String.intercalate "," params ++ ":")
  else if remote.type = "webdav" then
    let url := cfgGet remote.config "url" ""
    let vendor := cfgGet remote.config "vendor" "other"
    if url = "" then .error "WebDAV remote requires a URL"
    else
      let params := ["url=\x27" ++ url ++ "\x27", "vendor=\x27" ++ vendor ++ "\x27"]
      let params := match cred with
        | some data =>
          let user := credGetUser data
          let password := cfgGet data "password" ""
          let params := if user ≠ "" then params ++ ["user=\x27" ++ user ++ "\x27"] else params
          let obsPass := obscureOrEmpty obscure password
          if obsPass ≠ "" then params ++ ["pass=\x27" ++ obsPass ++ "\x27"] else params
        | none => params
      .ok (":webdav," ++ String.intercalate "," params ++ ":")
  else
    let host := cfgGet remote.config "host" ""
    let params := ["host=\"" ++ host ++ "\""]
    let defaultPort :=
      if remote.type = "sftp" then "22" else if remote.type = "smb" then "445" else "21"
    let port := cfgGet remote.config "port" defaultPort
    let params := params ++ ["port=\"" ++ port ++ "\""]
    let params := match cred with
      | some data =>
        let user := credGetUser data
        let password := cfgGet data "password" ""
        let params := if user ≠ "" then params ++ ["user=\"" ++ user ++ "\""] else params
        let obsPass := obscureOrEmpty obscure password
        if obsPass ≠ "" then params ++ ["pass=\"" ++ obsPass ++ "\""] else params
      | none => params
    let params := if remote.type = "sftp" then
        params ++ ["chunk_size=\"" ++ toString sftpChunkSize ++ "k\"",
                   "concurrency=\"" ++ toString sftpConcurrency ++ "\""]
      else params
    let base := ":" ++ remote.type ++ "," ++ String.intercalate "," params ++ ":"
    if remote.type = "smb" then
      let share := stripSlash (cfgGet remote.config "share" "")
      let path := stripSlash (cfgGet remote.config "path" "")
      let fullPath := if path ≠ "" then share ++ "/" ++ path else share
      .ok (base ++ fullPath)
    else
      let path := cfgGet remote.config "path" ""
      let path := if path = "" then "/" else path
      .ok (base ++ path)

/-- Claim C4 (code bug evaluation): a remote whose type tag "gdrive" is not
among the supported backends does NOT raise; it falls through to the generic
connection-string branch and returns an address, because both arms of that
branch return before the final unsupported-type raise. -/
theorem C4_unsupported_backend_bug :
    get_fs_string { id := 1, name := "r", type := "gdrive", credentialId := none, config := [] }
      none id 255 64
      = .ok ":gdrive,host=\"\",port=\"21\":/" := by
  rfl

/-! ## Browse Session Manager (browse_sessions.py)

Sessions live in an in-memory dict keyed by an 8-character session id.
Timestamps are seconds as Int; SESSION_TIMEOUT defaults to 300.  Connection
objects are abstracted to the facts browse dispatches on: whether an SSH
connection is open and whether an rclone fallback profile name exists. -/

def SESSION_TIMEOUT : Int := 300

structure BrowseSession where
  sessionId : String
  remoteId : Nat
  remoteType : String
  basePath : String
  createdAt : Int
  lastAccessed : Int
  hasSshConn : Bool
  rcloneRemoteName : Option String
deriving DecidableEq

/-- BrowseSession.is_expired: elapsed strictly greater than the timeout. -/
def isExpired (now : Int) (s : BrowseSession) : Bool :=
  decide (now - s.lastAccessed > SESSION_TIMEOUT)

/-- BrowseSessionManager.get_session: returns the session with its
last-accessed time refreshed (touch), or none when the id is unknown or the
session has expired; the map is updated with the touched session. -/
def getSession (sessions : List (String × BrowseSession)) (sessionId : String) (now : Int) :
    Option BrowseSession × List (String × BrowseSession) :=
  match List.lookup sessionId sessions with
  | none => (none, sessions)
  | some s =>
    if ¬ isExpired now s then
      let s' := { s with lastAccessed := now }
      (some s', dictSet sessions sessionId s')
    else (none, sessions)

/-- Full-path computation in browse (browse_sessions.py lines 310-316). -/
def browseFullPath (basePath path : String) : String :=
  if basePath ≠ "" ∧ basePath ≠ "/" then
    if path ≠ "" then rstripSlash basePath ++ "/" ++ lstripSlash path
    else basePath
  else
    if path ≠ "" then "/" ++ lstripSlash path else "/"

/-- How browse resolves a listing: SSH ls over the open connection, a local
filesystem scan, or the rclone fallback profile (which receives the raw
relative path, not the full path). -/
inductive BrowseMethod
  | sshLs (fullPath : String)
  | localScan (fullPath : String)
  | rcloneList (path : String)
deriving DecidableEq

/-- BrowseSessionManager.browse: raises a "not found or expired" ValueError
for unknown/expired session ids; otherwise resolves the path with the
session's strategy.  The returned map carries the touched session. -/
def browse (sessions : List (String × BrowseSession)) (sessionId : String) (path : String)
    (now : Int) : Except String (BrowseMethod × List (String × BrowseSession)) :=
  match getSession sessions sessionId now with
  | (none, _) => .error ("Session " ++ sessionId ++ " not found or expired")
  | (some s, sessions') =>
    let fullPath := browseFullPath s.basePath path
    if s.hasSshConn then .ok (.sshLs fullPath, sessions')
    else if s.remoteType = "local" then .ok (.localScan fullPath, sessions')
    else .ok (.rcloneList path, sessions')

theorem browse_unknown (sessions : List (String × BrowseSession)) (sessionId path : String)
    (now : Int) (h : List.lookup sessionId sessions = none) :
    browse sessions sessionId path now
      = .error ("Session " ++ sessionId ++ " not found or expired") := by
  unfold browse getSession
  rw [h]

theorem browse_expired (sessions : List (String × BrowseSession)) (sessionId path : String)
    (now : Int) (s : BrowseSession) (h : List.lookup sessionId sessions = some s)
    (hexp : SESSION_TIMEOUT < now - s.lastAccessed) :
    browse sessions sessionId path now
      = .error ("Session " ++ sessionId ++ " not found or expired") := by
  unfold browse getSession
  rw [h]
  have : isExpired now s = true := by
    unfold isExpired
    simpa using hexp
  simp [this]

theorem browse_live_touches (sessions : List (String × BrowseSession)) (sessionId path : String)
    (now : Int) (s : BrowseSession) (h : List.lookup sessionId sessions = some s)
    (hlive : now - s.lastAccessed ≤ SESSION_TIMEOUT) :
    ∃ method sessions',
      browse sessions sessionId path now = .ok (method, sessions')
      ∧ List.lookup sessionId sessions' = some { s with lastAccessed := now } := by
  have hnotexp : isExpired now s = false := by
    unfold isExpired
    simpa using hlive
  have hlook := lookup_dictSet_self sessions sessionId { s with lastAccessed := now }
  unfold browse getSession
  rw [h]
  simp only [hnotexp, Bool.false_eq_true, not_false_eq_true, if_pos]
  by_cases hssh : ({ s with lastAccessed := now } : BrowseSession).hasSshConn
  · exact ⟨_, _, by rw [if_pos hssh], hlook⟩
  · by_cases hloc : ({ s with lastAccessed := now } : BrowseSession).remoteType = "local"
    · exact ⟨_, _, by rw [if_neg hssh, if_pos hloc], hlook⟩
    · exact ⟨_, _, by rw [if_neg hssh, if_neg hloc], hlook⟩

/-- Claim C8: browse raises a distinguishable not-found error for a session id
that is unknown or whose last access is older than the idle timeout
(300 seconds); for a live session it refreshes the last-access time to the
current time before resolving the path. -/
theorem C8_session_expiry (sessions : List (String × BrowseSession)) (sessionId path : String)
    (now : Int) :
    (List.lookup sessionId sessions = none →
      browse sessions sessionId path now
        = .error ("Session " ++ sessionId ++ " not found or expired"))
    ∧ (∀ s, List.lookup sessionId sessions = some s →
        SESSION_TIMEOUT < now - s.lastAccessed →
        browse sessions sessionId path now
          = .error ("Session " ++ sessionId ++ " not found or expired"))
    ∧ (∀ s, List.lookup sessionId sessions = some s →
        now - s.lastAccessed ≤ SESSION_TIMEOUT →
        ∃ method sessions',
          browse sessions sessionId path now = .ok (method, sessions')
          ∧ List.lookup sessionId sessions' = some { s with lastAccessed := now }) :=
  ⟨fun h => browse_unknown sessions sessionId path now h,
   fun s h hexp => browse_expired sessions sessionId path now s h hexp,
   fun s h hlive => browse_live_touches sessions sessionId path now s h hlive⟩

def sampleSession : BrowseSession :=
  { sessionId := "abc", remoteId := 2, remoteType := "sftp", basePath := "/data",
    createdAt := 0, lastAccessed := 100, hasSshConn := true, rcloneRemoteName := none }

/-- Claim C8 witness: an expired lookup errors; a live lookup is touched. -/
theorem C8_session_expiry_witness :
    (List.lookup "zzz" [("abc", sampleSession)] = none →
      browse [("abc", sampleSession)] "zzz" "x" 1000
        = .error ("Session " ++ "zzz" ++ " not found or expired"))
    ∧ List.lookup "zzz" [("abc", sampleSession)] = none
    ∧ List.lookup "abc" [("abc", sampleSession)] = some sampleSession
    ∧ SESSION_TIMEOUT < 1000 - sampleSession.lastAccessed
    ∧ browse [("abc", sampleSession)] "abc" "x" 1000
        = .error ("Session " ++ "abc" ++ " not found or expired") := by
  refine ⟨(C8_session_expiry [("abc", sampleSession)] "zzz" "x" 1000).1, by rfl, by rfl,
    by unfold sampleSession SESSION_TIMEOUT; decide, ?_⟩
  exact (C8_session_expiry [("abc", sampleSession)] "abc" "x" 1000).2.1 sampleSession rfl
    (by unfold sampleSession SESSION_TIMEOUT; decide)

/-! ## Job Execution Engine (runner.py lines 196-655)

run_job and the completion branch of _monitor_job are modelled as pure step
functions over the runner's in-memory maps, the JobHistory table and an
effect log (published events, executed action triggers).  External
collaborators enter as inputs: the DB rows (job, remotes, decrypted
credentials, schedule templates), the settings (cooldown seconds, history
ceiling, sftp tuning), the daemon responses (operations/size, the sync/<op>
dispatch, the final job/status payload) and the effectful single-action body
(runAction).  A raised exception is represented by the raisedError outcome.
Python truthiness on optional strings: NULL and "" are both falsy, so
nullable string columns are modelled as String with "" for absent. -/

structure Job where
  id : Nat
  name : String
  operation : String
  sourceRemoteId : Nat
  destRemoteId : Nat
  sourcePath : String
  destPath : String
  excludes : List String
  transferMethod : String
  copyMode : String
  schedule : String
  allowConcurrentRuns : Bool
  maxConcurrentRuns : Option Int
  useChecksum : Bool
  sequentialTransfer : Bool
  preserveMetadata : Bool
deriving DecidableEq

/-- Python: job.max_concurrent_runs or 1 (None and 0 are falsy). -/
def orOne : Option Int → Int
  | none => 1
  | some v => if v = 0 then 1 else v

structure RunnerState where
  activeJobs : List (Nat × Nat) := []
  jobTotals : List (Nat × Int) := []
  jobSnapshots : List (Nat × JobSnapshot) := []
  jobStartTimes : List (Nat × Int) := []
  activeJobCounts : List (Nat × Int) := []
  lastFailureTimes : List (Nat × Int) := []
  jobTransferredFiles : List (Nat × List String) := []
  jobFinalStats : List (Nat × Stats) := []
deriving DecidableEq

inductive Event
  | jobUpdate (jobId : Nat) (status : String) (error : Option String)
  | progress (jobId : Nat) (stats : Stats)
deriving DecidableEq

inductive RunOutcome
  | notFound
  | skippedConcurrency
  | skippedCooldown
  | raisedError (msg : String)
  | dispatched (rcloneJobId : Option Nat)
deriving DecidableEq

structure TransferRequest where
  cmd : String
  srcFs : String
  dstFs : String
deriving DecidableEq

structure RunResult where
  state : RunnerState
  history : List HistoryRow
  events : List Event
  actions : List (String × List AResult)
  request : Option TransferRequest
  outcome : RunOutcome

structure RunEnv where
  jobId : Nat
  job : Option Job
  executionType : String
  now : Int
  cooldownSeconds : Int
  maxHistoryEntries : Nat
  sourceRemote : Option RemoteRow
  destRemote : Option RemoteRow
  sourceCred : Option (List (String × String))
  destCred : Option (List (String × String))
  obscure : String → String
  sftpChunkSize : Int
  sftpConcurrency : Int
  scheduleTemplates : List (String × Nat)
  sizeResult : Option Int
  dispatch : Except String (Option Nat)
  jobActions : List JobActionRow
  runAction : ActionRow → Except String Unit

/-- Fresh autoincrement id for a new history row. -/
def freshHistoryId (history : List HistoryRow) : Nat :=
  history.foldl (fun m r => Nat.max m r.id) 0 + 1

/-- JobRunner._log_history: append one row (completed_at defaults to now) and
prune. -/
def logHistory (history : List HistoryRow) (maxEntries : Nat) (now : Int)
    (jobId : Nat) (status : String) (details : HistoryDetails)
    (avgSpeed : Option Int) (files : Option (List String)) (snapshot : Option JobSnapshot)
    (startedAt : Option Int) (completedAt : Option Int) : List HistoryRow :=
  let row : HistoryRow :=
    { id := freshHistoryId history, jobId := jobId, status := status, details := details,
      timestamp := now, avgSpeed := avgSpeed, filesTransferred := files,
      jobSnapshot := snapshot, startedAt := startedAt,
      completedAt := some (completedAt.getD now) }
  pruneHistory (history ++ [row]) maxEntries

/-- Sub-path application (runner.py lines 254-262). -/
def applySourcePath (fs : String) (subPath : String) : String :=
  if subPath ≠ "" then rstripSlash fs ++ "/" ++ stripSlash subPath else fs

/-- Python str.split("/") on a character list; split("") on the empty string
yields [""], matching Python. -/
def splitOnSlash : List Char → List (List Char)
  | [] => [[]]
  | c :: rest =>
    let r := splitOnSlash rest
    if c = '/' then [] :: r
    else
      match r with
      | [] => [[c]]
      | s :: ss => (c :: s) :: ss

/-- Python: job.source_path.strip("/").split("/")[-1]. -/
def folderName (sourcePath : String) : String :=
  ⟨(splitOnSlash (stripSlash sourcePath).data).getLastD []⟩

/-- copy_mode application (runner.py lines 280-288): contents adds a trailing
separator to the source; folder appends the final path segment of source_path
to the destination (when that segment is non-empty). -/
def applyCopyMode (copyMode sourcePath : String) (srcFs dstFs : String) : String × String :=
  if copyMode = "contents" then (rstripSlash srcFs ++ "/", dstFs)
  else if copyMode = "folder" ∧ sourcePath ≠ "" then
    if folderName sourcePath ≠ "" then
      (srcFs, rstripSlash dstFs ++ "/" ++ folderName sourcePath)
    else (srcFs, dstFs)
  else (srcFs, dstFs)

/-- Schedule template lookup for the snapshot (runner.py lines 399-413). -/
def resolveSchedule (templates : List (String × Nat)) (schedule : String) :
    String × Option Nat :=
  if schedule ≠ "" then
    match List.lookup schedule templates with
    | some tid => (schedule, some tid)
    | none => (schedule, none)
  else ("Manual", none)

def makeSnapshot (job : Job) (source dest : RemoteRow) (scheduleName : String)
    (scheduleId : Option Nat) (executionType : String) : JobSnapshot :=
  { name := job.name, operation := job.operation,
    sourceRemoteId := job.sourceRemoteId, sourceRemoteName := source.name,
    destRemoteId := job.destRemoteId, destRemoteName := dest.name,
    sourcePath := job.sourcePath, destPath := job.destPath,
    transferMethod := job.transferMethod, copyMode := job.copyMode,
    excludes := job.excludes, scheduleName := scheduleName, scheduleId := scheduleId,
    allowConcurrentRuns := job.allowConcurrentRuns,
    maxConcurrentRuns := job.maxConcurrentRuns, useChecksum := job.useChecksum,
    sequentialTransfer := job.sequentialTransfer,
    preserveMetadata := job.preserveMetadata, executionType := executionType }

def skipResult (st : RunnerState) (history : List HistoryRow) (o : RunOutcome) : RunResult :=
  { state := st, history := history, events := [], actions := [], request := none, outcome := o }

/-- run_job from sub-path application through dispatch (lines 254-447).
Transfer-parameter assembly (lines 292-355) only shapes the daemon request
body and is abstracted into the recorded TransferRequest; the operations/size
pre-computation populates job_totals on success and is non-fatal. -/
def runJobDispatch (env : RunEnv) (st : RunnerState) (history : List HistoryRow)
    (job : Job) (source dest : RemoteRow) (srcFs0 dstFs0 : String) : RunResult :=
  let srcFs1 := applySourcePath srcFs0 job.sourcePath
  let dstFs1 := applySourcePath dstFs0 job.destPath
  let preResults := executeActions env.jobActions job.id "pre" env.runAction
  let sd := applyCopyMode job.copyMode job.sourcePath srcFs1 dstFs1
  let cmd := "sync/" ++ job.operation
  let st := match env.sizeResult with
    | some bytes => { st with jobTotals := dictSet st.jobTotals env.jobId bytes }
    | none => st
  let request : TransferRequest := { cmd := cmd, srcFs := sd.1, dstFs := sd.2 }
  match env.dispatch with
  | .error e =>
    { state := st,
      history := logHistory history env.maxHistoryEntries env.now env.jobId "failed"
        (.errorMsg e) none none none none none,
      events := [], actions := [("pre", preResults)], request := some request,
      outcome := .raisedError e }
  | .ok none =>
    { state := st, history := history, events := [], actions := [("pre", preResults)],
      request := some request, outcome := .dispatched none }
  | .ok (some rid) =>
    let sched := resolveSchedule env.scheduleTemplates job.schedule
    let snapshot := makeSnapshot job source dest sched.1 sched.2 env.executionType
    { state :=
        { st with
          activeJobs := dictSet st.activeJobs env.jobId rid,
          jobSnapshots := dictSet st.jobSnapshots env.jobId snapshot,
          jobStartTimes := dictSet st.jobStartTimes env.jobId env.now,
          activeJobCounts := incrementActiveCount st.activeJobCounts env.jobId },
      history := history,
      events := [.jobUpdate env.jobId "running" none],
      actions := [("pre", preResults)],
      request := some request,
      outcome := .dispatched (some rid) }

/-- run_job from remote resolution onward (lines 226-447): a missing remote or
an address-building failure writes an immediate failed history row and
re-raises; otherwise dispatch proceeds. -/
def runJobResolve (env : RunEnv) (st : RunnerState) (history : List HistoryRow)
    (job : Job) : RunResult :=
  match env.sourceRemote, env.destRemote with
  | some source, some dest =>
    match get_fs_string source env.sourceCred env.obscure
        env.sftpChunkSize env.sftpConcurrency with
    | .error e =>
      { state := st,
        history := logHistory history env.maxHistoryEntries env.now env.jobId "failed"
          (.errorMsg e) none none none none none,
        events := [], actions := [], request := none, outcome := .raisedError e }
    | .ok srcFs0 =>
      match get_fs_string dest env.destCred env.obscure
          env.sftpChunkSize env.sftpConcurrency with
      | .error e =>
        { state := st,
          history := logHistory history env.maxHistoryEntries env.now env.jobId "failed"
            (.errorMsg e) none none none none none,
          events := [], actions := [], request := none, outcome := .raisedError e }
      | .ok dstFs0 => runJobDispatch env st history job source dest srcFs0 dstFs0
  | _, _ =>
    { state := st,
      history := logHistory history env.maxHistoryEntries env.now env.jobId "failed"
        (.errorMsg "Source or Dest remote not found") none none none none none,
      events := [], actions := [], request := none,
      outcome := .raisedError "Source or Dest remote not found" }

/-- JobRunner.run_job (lines 196-447): load, admission control, cooldown,
then remote resolution and dispatch. -/
def runJob (env : RunEnv) (st : RunnerState) (history : List HistoryRow) : RunResult :=
  match env.job with
  | none => skipResult st history .notFound
  | some job =>
    let currentCount := getActiveCount st.activeJobCounts env.jobId
    if job.allowConcurrentRuns = false ∧ 0 < currentCount then
      skipResult st history .skippedConcurrency
    else if job.allowConcurrentRuns = true ∧ orOne job.maxConcurrentRuns ≤ currentCount then
      skipResult st history .skippedConcurrency
    else
      let cooldownHit :=
        match List.lookup env.jobId st.lastFailureTimes with
        | some t => decide (env.now - t < env.cooldownSeconds)
        | none => false
      if cooldownHit then skipResult st history .skippedCooldown
      else runJobResolve env st history job

/-! ### The monitor task's completion branch (runner.py lines 501-612) -/

structure MonitorEnv where
  rcloneJobId : Nat
  dbJobId : Nat
  payload : StatusPayload
  prevStats : Option Stats
  now : Int
  maxHistoryEntries : Nat
  jobRow : Option Job
  jobActions : List JobActionRow
  runAction : ActionRow → Except String Unit

structure MonitorResult where
  state : RunnerState
  history : List HistoryRow
  events : List Event
  actions : List (String × List AResult)
  jobStatusWrite : Option (String × Option String)
  completedNormally : Bool

/-- The body of _monitor_job once job/status reports finished.  prevStats is
the value of the loop-local variable stats: none models the first iteration,
on which the variable was never assigned, so evaluating it while building the
post-action context (line 583) raises UnboundLocalError; the loop's except
handler logs it and breaks, skipping the post actions and the final
job_update event (effects already performed, including the history row,
persist). -/
def monitorFinish (env : MonitorEnv) (st : RunnerState) (history : List HistoryRow) :
    MonitorResult :=
  let st := { st with activeJobs := dictDel st.activeJobs env.dbJobId,
                      jobTotals := dictDel st.jobTotals env.dbJobId }
  let st := { st with activeJobCounts := decrementActiveCount st.activeJobCounts env.dbJobId }
  let finalStatus := if env.payload.success then "success" else "failed"
  let errorMsg := (env.payload.error).getD ""
  let st := if finalStatus = "failed" then
      { st with lastFailureTimes := dictSet st.lastFailureTimes env.dbJobId env.now }
    else { st with lastFailureTimes := dictDel st.lastFailureTimes env.dbJobId }
  let jobStatusWrite := env.jobRow.map
    (fun _ => (finalStatus, if errorMsg ≠ "" then some errorMsg else none))
  let filesList := (List.lookup env.dbJobId st.jobTransferredFiles).getD []
  let st := { st with jobTransferredFiles := dictDel st.jobTransferredFiles env.dbJobId }
  let finalStats : Stats := (List.lookup env.dbJobId st.jobFinalStats).getD {}
  let avgSpeed : Int :=
    if finalStats.speed ≠ 0 then finalStats.speed
    else if finalStats.bytes ≠ 0 ∧ finalStats.elapsedTime ≠ 0 then
      (if 0 < finalStats.elapsedTime then finalStats.bytes / finalStats.elapsedTime else 0)
    else 0
  let st := { st with jobFinalStats := dictDel st.jobFinalStats env.dbJobId }
  let snapshot := List.lookup env.dbJobId st.jobSnapshots
  let st := { st with jobSnapshots := dictDel st.jobSnapshots env.dbJobId }
  let startedAt := List.lookup env.dbJobId st.jobStartTimes
  let st := { st with jobStartTimes := dictDel st.jobStartTimes env.dbJobId }
  let history := logHistory history env.maxHistoryEntries env.now env.dbJobId finalStatus
    (.payload env.payload)
    (if avgSpeed ≠ 0 then some avgSpeed else none)
    (if filesList ≠ [] then some filesList else none)
    snapshot startedAt (some env.now)
  match env.prevStats with
  | none =>
    { state := st, history := history, events := [], actions := [],
      jobStatusWrite := jobStatusWrite, completedNormally := false }
  | some _ =>
    let acts := match env.jobRow with
      | some _ =>
        let always := executeActions env.jobActions env.dbJobId "post_always" env.runAction
        let rest := if finalStatus = "success" then
            executeActions env.jobActions env.dbJobId "post_success" env.runAction
          else executeActions env.jobActions env.dbJobId "post_fail" env.runAction
        [("post_always", always),
         ((if finalStatus = "success" then "post_success" else "post_fail"), rest)]
      | none => []
    { state := st, history := history,
      events := [.jobUpdate env.dbJobId finalStatus (some errorMsg)],
      actions := acts, jobStatusWrite := jobStatusWrite, completedNormally := true }

/-! ### Engine lemmas and claims C1, C2, C5, C3 -/

theorem getActiveCount_increment (m : List (Nat × Int)) (k : Nat) :
    getActiveCount (incrementActiveCount m k) k = getActiveCount m k + 1 := by
  unfold incrementActiveCount getActiveCount
  rw [lookup_dictSet_self]
  rfl

theorem runJobDispatch_counts (env : RunEnv) (st : RunnerState) (history : List HistoryRow)
    (job : Job) (source dest : RemoteRow) (s0 d0 : String) :
    (runJobDispatch env st history job source dest s0 d0).state.activeJobCounts
      = st.activeJobCounts
    ∨ (runJobDispatch env st history job source dest s0 d0).state.activeJobCounts
      = incrementActiveCount st.activeJobCounts env.jobId := by
  unfold runJobDispatch
  cases hs : env.sizeResult with
  | none =>
    cases hd : env.dispatch with
    | error e => left; simp
    | ok v =>
      cases v with
      | none => left; simp
      | some rid => right; simp
  | some b =>
    cases hd : env.dispatch with
    | error e => left; simp
    | ok v =>
      cases v with
      | none => left; simp
      | some rid => right; simp

theorem runJobDispatch_not_skip (env : RunEnv) (st : RunnerState) (history : List HistoryRow)
    (job : Job) (source dest : RemoteRow) (s0 d0 : String) :
    (runJobDispatch env st history job source dest s0 d0).outcome ≠ .skippedCooldown
    ∧ (runJobDispatch env st history job source dest s0 d0).outcome ≠ .skippedConcurrency := by
  unfold runJobDispatch
  cases hs : env.sizeResult <;>
    cases hd : env.dispatch with
    | error e => exact ⟨by simp, by simp⟩
    | ok v => cases v <;> exact ⟨by simp, by simp⟩

theorem runJobDispatch_request (env : RunEnv) (st : RunnerState) (history : List HistoryRow)
    (job : Job) (source dest : RemoteRow) (s0 d0 : String) :
    (runJobDispatch env st history job source dest s0 d0).request
      = some { cmd := "sync/" ++ job.operation,
               srcFs := (applyCopyMode job.copyMode job.sourcePath
                 (applySourcePath s0 job.sourcePath) (applySourcePath d0 job.destPath)).1,
               dstFs := (applyCopyMode job.copyMode job.sourcePath
                 (applySourcePath s0 job.sourcePath) (applySourcePath d0 job.destPath)).2 } := by
  unfold runJobDispatch
  cases hs : env.sizeResult <;>
    cases hd : env.dispatch with
    | error e => simp
    | ok v => cases v <;> simp

theorem runJobResolve_counts (env : RunEnv) (st : RunnerState) (history : List HistoryRow)
    (job : Job) :
    (runJobResolve env st history job).state.activeJobCounts = st.activeJobCounts
    ∨ (runJobResolve env st history job).state.activeJobCounts
      = incrementActiveCount st.activeJobCounts env.jobId := by
  unfold runJobResolve
  split
  · split
    · left; simp
    · split
      · left; simp
      · exact runJobDispatch_counts env st history job _ _ _ _
  · left; simp

theorem runJobResolve_not_skip (env : RunEnv) (st : RunnerState) (history : List HistoryRow)
    (job : Job) :
    (runJobResolve env st history job).outcome ≠ .skippedCooldown
    ∧ (runJobResolve env st history job).outcome ≠ .skippedConcurrency := by
  unfold runJobResolve
  split
  · split
    · exact ⟨by simp, by simp⟩
    · split
      · exact ⟨by simp, by simp⟩
      · exact runJobDispatch_not_skip env st history job _ _ _ _
  · exact ⟨by simp, by simp⟩

/-- Claim C1: run_job performs admission control before dispatch: with
concurrency disallowed and a run already active it returns silently with
state, history, events and request untouched; with concurrency allowed it
skips once the active count has reached max_concurrent_runs, and the active
count after any run_job call never exceeds max_concurrent_runs when it did
not before. -/
theorem C1_admission_control (env : RunEnv) (st : RunnerState) (history : List HistoryRow)
    (job : Job) (hjob : env.job = some job) :
    (job.allowConcurrentRuns = false →
      0 < getActiveCount st.activeJobCounts env.jobId →
      runJob env st history = skipResult st history .skippedConcurrency)
    ∧ (job.allowConcurrentRuns = true →
      orOne job.maxConcurrentRuns ≤ getActiveCount st.activeJobCounts env.jobId →
      runJob env st history = skipResult st history .skippedConcurrency)
    ∧ (job.allowConcurrentRuns = true →
      getActiveCount st.activeJobCounts env.jobId ≤ orOne job.maxConcurrentRuns →
      getActiveCount (runJob env st history).state.activeJobCounts env.jobId
        ≤ orOne job.maxConcurrentRuns) := by
  refine ⟨?_, ?_, ?_⟩
  · intro hallow hpos
    unfold runJob
    simp only [hjob]
    rw [if_pos ⟨hallow, hpos⟩]
  · intro hallow hge
    unfold runJob
    simp only [hjob]
    rw [if_neg (fun h => by rw [hallow] at h; exact absurd h.1 (by simp)),
      if_pos ⟨hallow, hge⟩]
  · intro hallow hle
    unfold runJob
    simp only [hjob]
    by_cases h1 : job.allowConcurrentRuns = false
        ∧ 0 < getActiveCount st.activeJobCounts env.jobId
    · rw [if_pos h1]
      simpa [skipResult] using hle
    · rw [if_neg h1]
      by_cases h2 : job.allowConcurrentRuns = true
          ∧ orOne job.maxConcurrentRuns ≤ getActiveCount st.activeJobCounts env.jobId
      · rw [if_pos h2]
        simpa [skipResult] using hle
      · rw [if_neg h2]
        have hlt : getActiveCount st.activeJobCounts env.jobId
            < orOne job.maxConcurrentRuns :=
          lt_of_not_le (fun hge => h2 ⟨hallow, hge⟩)
        have htail : ∀ r : RunResult,
            r.state.activeJobCounts = st.activeJobCounts
              ∨ r.state.activeJobCounts = incrementActiveCount st.activeJobCounts env.jobId →
            getActiveCount r.state.activeJobCounts env.jobId ≤ orOne job.maxConcurrentRuns := by
          intro r hr
          rcases hr with hr | hr
          · rw [hr]; exact hle
          · rw [hr, getActiveCount_increment]; omega
        cases hlf : List.lookup env.jobId st.lastFailureTimes with
        | some t =>
          by_cases h4 : env.now - t < env.cooldownSeconds
          · rw [if_pos (by simpa using h4)]
            simpa [skipResult] using hle
          · rw [if_neg (by simpa using h4)]
            exact htail _ (runJobResolve_counts env st history job)
        | none =>
          rw [if_neg (by simp)]
          exact htail _ (runJobResolve_counts env st history job)

def wJob : Job :=
  { id := 1, name := "j", operation := "copy", sourceRemoteId := 1, destRemoteId := 2,
    sourcePath := "movies/foo", destPath := "", excludes := [],
    transferMethod := "direct", copyMode := "folder", schedule := "",
    allowConcurrentRuns := false, maxConcurrentRuns := some 1, useChecksum := false,
    sequentialTransfer := false, preserveMetadata := false }

def wSrcRemote : RemoteRow :=
  { id := 1, name := "src", type := "local", credentialId := none,
    config := [("path", "/data")] }

def wDstRemote : RemoteRow :=
  { id := 2, name := "dst", type := "local", credentialId := none,
    config := [("path", "/backup")] }

def wEnv : RunEnv :=
  { jobId := 1, job := some wJob, executionType := "manual", now := 1000,
    cooldownSeconds := 60, maxHistoryEntries := 50,
    sourceRemote := some wSrcRemote, destRemote := some wDstRemote,
    sourceCred := none, destCred := none, obscure := id,
    sftpChunkSize := 255, sftpConcurrency := 64, scheduleTemplates := [],
    sizeResult := none, dispatch := .ok (some 77), jobActions := [],
    runAction := fun _ => .ok () }

/-- Claim C1 witness: a job with concurrency disallowed and one active
instance is skipped with no history row and the counter untouched. -/
theorem C1_admission_control_witness :
    wEnv.job = some wJob
    ∧ wJob.allowConcurrentRuns = false
    ∧ (0 : Int) < getActiveCount [(1, 1)] 1
    ∧ runJob wEnv { activeJobCounts := [(1, 1)] } []
        = skipResult { activeJobCounts := [(1, 1)] } [] .skippedConcurrency := by
  refine ⟨rfl, rfl, by decide, ?_⟩
  exact (C1_admission_control wEnv { activeJobCounts := [(1, 1)] } [] wJob rfl).1 rfl (by decide)

/-- Claim C2: run_job is skipped silently (state, history, events, request
untouched) while the last recorded failure is less than cooldown_seconds old;
once the window has elapsed it proceeds past both skip gates.  The
last-failure timestamp is stamped by the monitor on a failed finish and
cleared on a successful one. -/
theorem C2_failure_cooldown (env : RunEnv) (st : RunnerState) (history : List HistoryRow)
    (job : Job) (t : Int) (hjob : env.job = some job)
    (hadm1 : ¬(job.allowConcurrentRuns = false
        ∧ 0 < getActiveCount st.activeJobCounts env.jobId))
    (hadm2 : ¬(job.allowConcurrentRuns = true
        ∧ orOne job.maxConcurrentRuns ≤ getActiveCount st.activeJobCounts env.jobId))
    (hlf : List.lookup env.jobId st.lastFailureTimes = some t) :
    (env.now - t < env.cooldownSeconds →
      runJob env st history = skipResult st history .skippedCooldown)
    ∧ (env.cooldownSeconds ≤ env.now - t →
      (runJob env st history).outcome ≠ .skippedCooldown
      ∧ (runJob env st history).outcome ≠ .skippedConcurrency)
    ∧ (∀ (menv : MonitorEnv) (mst : RunnerState) (mh : List HistoryRow),
        menv.payload.success = false →
        List.lookup menv.dbJobId (monitorFinish menv mst mh).state.lastFailureTimes
          = some menv.now)
    ∧ (∀ (menv : MonitorEnv) (mst : RunnerState) (mh : List HistoryRow),
        menv.payload.success = true →
        List.lookup menv.dbJobId (monitorFinish menv mst mh).state.lastFailureTimes
          = none) := by
  refine ⟨?_, ?_, ?_, ?_⟩
  · intro hin
    unfold runJob
    simp only [hjob]
    rw [if_neg hadm1, if_neg hadm2]
    simp only [hlf]
    rw [if_pos (by simpa using hin)]
  · intro hout
    unfold runJob
    simp only [hjob]
    rw [if_neg hadm1, if_neg hadm2]
    simp only [hlf]
    rw [if_neg (by simp; omega)]
    exact runJobResolve_not_skip env st history job
  · intro menv mst mh hfail
    unfold monitorFinish
    simp only [hfail]
    cases menv.prevStats <;>
      simp [lookup_dictSet_self]
  · intro menv mst mh hsucc
    unfold monitorFinish
    simp only [hsucc]
    cases menv.prevStats <;>
      simp [lookup_dictDel_self]

/-- Claim C2 witness: a failure stamped 30 seconds ago with a 60-second
cooldown causes a silent skip. -/
theorem C2_failure_cooldown_witness :
    wEnv.job = some wJob
    ∧ ¬(wJob.allowConcurrentRuns = false
        ∧ (0 : Int) < getActiveCount ({ lastFailureTimes := [(1, 970)] } : RunnerState).activeJobCounts 1)
    ∧ ¬(wJob.allowConcurrentRuns = true
        ∧ orOne wJob.maxConcurrentRuns
          ≤ getActiveCount ({ lastFailureTimes := [(1, 970)] } : RunnerState).activeJobCounts 1)
    ∧ List.lookup 1 ({ lastFailureTimes := [(1, 970)] } : RunnerState).lastFailureTimes = some 970
    ∧ wEnv.now - 970 < wEnv.cooldownSeconds
    ∧ runJob wEnv { lastFailureTimes := [(1, 970)] } []
        = skipResult { lastFailureTimes := [(1, 970)] } [] .skippedCooldown := by
  refine ⟨rfl, by decide, by decide, rfl, by decide, ?_⟩
  exact (C2_failure_cooldown wEnv { lastFailureTimes := [(1, 970)] } [] wJob 970 rfl
    (by decide) (by decide) rfl).1 (by decide)

/-- Claim C5: with a non-empty source_path, copy_mode folder appends the
trailing path segment of source_path to the destination address (after the
job-level sub-paths) and leaves the source address unmodified, while
copy_mode contents appends a trailing separator to the source address and
leaves the destination address unmodified, as recorded in the dispatched
transfer request. -/
theorem C5_copy_mode (env : RunEnv) (st : RunnerState) (history : List HistoryRow)
    (job : Job) (source dest : RemoteRow) (srcFs0 dstFs0 : String)
    (hjob : env.job = some job)
    (hsp : job.sourcePath ≠ "")
    (hadm1 : ¬(job.allowConcurrentRuns = false
        ∧ 0 < getActiveCount st.activeJobCounts env.jobId))
    (hadm2 : ¬(job.allowConcurrentRuns = true
        ∧ orOne job.maxConcurrentRuns ≤ getActiveCount st.activeJobCounts env.jobId))
    (hlf : List.lookup env.jobId st.lastFailureTimes = none)
    (hsrc : env.sourceRemote = some source) (hdst : env.destRemote = some dest)
    (hfs1 : get_fs_string source env.sourceCred env.obscure
        env.sftpChunkSize env.sftpConcurrency = .ok srcFs0)
    (hfs2 : get_fs_string dest env.destCred env.obscure
        env.sftpChunkSize env.sftpConcurrency = .ok dstFs0) :
    (job.copyMode = "folder" → folderName job.sourcePath ≠ "" →
      (runJob env st history).request
        = some { cmd := "sync/" ++ job.operation,
                 srcFs := applySourcePath srcFs0 job.sourcePath,
                 dstFs := rstripSlash (applySourcePath dstFs0 job.destPath)
                   ++ "/" ++ folderName job.sourcePath })
    ∧ (job.copyMode = "contents" →
      (runJob env st history).request
        = some { cmd := "sync/" ++ job.operation,
                 srcFs := rstripSlash (applySourcePath srcFs0 job.sourcePath) ++ "/",
                 dstFs := applySourcePath dstFs0 job.destPath }) := by
  have hrun : runJob env st history
      = runJobDispatch env st history job source dest srcFs0 dstFs0 := by
    unfold runJob
    simp only [hjob]
    rw [if_neg hadm1, if_neg hadm2]
    simp only [hlf]
    rw [if_neg (by simp)]
    unfold runJobResolve
    simp only [hsrc, hdst, hfs1, hfs2]
  constructor
  · intro hmode hfn
    rw [hrun, runJobDispatch_request]
    unfold applyCopyMode
    rw [hmode]
    rw [if_neg (by simp), if_pos ⟨rfl, hsp⟩, if_pos hfn]
  · intro hmode
    rw [hrun, runJobDispatch_request]
    unfold applyCopyMode
    rw [hmode, if_pos rfl]

/-- Claim C5 witness: copy_mode folder with source_path "movies/foo" appends
"foo" to the destination address and leaves the source address alone. -/
theorem C5_copy_mode_witness :
    wJob.copyMode = "folder"
    ∧ wJob.sourcePath ≠ ""
    ∧ folderName wJob.sourcePath ≠ ""
    ∧ get_fs_string wSrcRemote none id 255 64 = .ok "/data"
    ∧ (runJob wEnv {} []).request
        = some { cmd := "sync/" ++ wJob.operation,
                 srcFs := applySourcePath "/data" wJob.sourcePath,
                 dstFs := rstripSlash (applySourcePath "/backup" wJob.destPath)
                   ++ "/" ++ folderName wJob.sourcePath } := by
  refine ⟨rfl, by decide, by decide, rfl, ?_⟩
  exact (C5_copy_mode wEnv {} [] wJob wSrcRemote wDstRemote "/data" "/backup" rfl
    (by decide) (by decide) (by decide) rfl rfl rfl rfl rfl).1 rfl (by decide)

/-! ### Claim C3: the monitor's completion path on the first poll -/

def c3MonitorEnv : MonitorEnv :=
  { rcloneJobId := 9, dbJobId := 1, payload := { success := true, error := none },
    prevStats := none, now := 50, maxHistoryEntries := 50, jobRow := some wJob,
    jobActions := [{ id := 1, jobId := 1, actionId := 4, trigger := "post_always", order := 0,
                     action := some { id := 4, name := "hook", type := "webhook", config := [] } }],
    runAction := fun _ => .ok () }

def c3State : RunnerState :=
  { activeJobs := [(1, 9)], jobStartTimes := [(1, 10)], activeJobCounts := [(1, 1)] }

/-- Claim C3 (code bug evaluation): when the daemon reports the run finished
on the monitor's very first poll, the loop-local stats variable was never
assigned, so building the post-action context raises UnboundLocalError
(runner.py line 583): the history row is written (exactly one, with
completed_at 50 >= started_at 10), but no post action runs (although a
post_always action is configured) and no final job_update event is
published. -/
theorem C3_first_poll_monitor_bug :
    (monitorFinish c3MonitorEnv c3State []).history.length = 1
    ∧ ((monitorFinish c3MonitorEnv c3State []).history.map
        (fun r => (r.jobId, r.status, r.startedAt, r.completedAt)))
      = [(1, "success", some 10, some 50)]
    ∧ (monitorFinish c3MonitorEnv c3State []).actions = []
    ∧ (monitorFinish c3MonitorEnv c3State []).events = []
    ∧ (monitorFinish c3MonitorEnv c3State []).completedNormally = false
    ∧ selectJobActions c3MonitorEnv.jobActions 1 "post_always" ≠ [] := by
  refine ⟨rfl, by decide, rfl, rfl, rfl, by decide⟩

/-! ## Action template substitution (runner.py lines 116-128)

_process_action's substitute helper walks the context dict in iteration
order; for a dict-valued key it replaces both token spellings for each
subkey (with and without spaces inside the doubled braces), for any other
value both spellings of the bare key, using sequential Python str.replace
calls.  Values are already stringified.  str.replace is modelled on
character lists with a fuel argument equal to the text length (every step
consumes at least one character because the token patterns are non-empty;
an empty pattern never matches here, unlike Python's insert-everywhere
semantics, which no caller exercises). -/

def listReplaceAux (pat repl : List Char) : Nat → List Char → List Char
  | 0, t => t
  | _ + 1, [] => []
  | n + 1, c :: rest =>
    if pat ≠ [] ∧ pat.isPrefixOf (c :: rest) then
      repl ++ listReplaceAux pat repl n (List.drop pat.length (c :: rest))
    else c :: listReplaceAux pat repl n rest

/-- Python str.replace(old, new): replaces non-overlapping occurrences left
to right, never rescanning the inserted replacement. -/
def listReplace (pat repl t : List Char) : List Char :=
  listReplaceAux pat repl t.length t

theorem listReplaceAux_zero (pat repl : List Char) (t : List Char) :
    listReplaceAux pat repl 0 t = t := rfl

theorem listReplaceAux_nil (pat repl : List Char) (n : Nat) :
    listReplaceAux pat repl n [] = [] := by
  cases n <;> rfl

theorem pat_length_pos {pat : List Char} (h : pat ≠ []) : 1 ≤ pat.length := by
  cases hp : pat
  · exact absurd hp h
  · simp

theorem listReplaceAux_fuel (pat repl : List Char) :
    ∀ n m (t : List Char), t.length ≤ n → t.length ≤ m →
      listReplaceAux pat repl n t = listReplaceAux pat repl m t := by
  intro n
  induction n with
  | zero =>
    intro m t hn _
    have ht : t = [] := List.eq_nil_of_length_eq_zero (Nat.le_zero.mp hn)
    subst ht
    simp [listReplaceAux_nil]
  | succ n ih =>
    intro m t hn hm
    cases t with
    | nil => rw [listReplaceAux_nil, listReplaceAux_nil]
    | cons c rest =>
      cases m with
      | zero => simp at hm
      | succ m =>
        simp only [listReplaceAux]
        by_cases h : pat ≠ [] ∧ pat.isPrefixOf (c :: rest)
        · rw [if_pos h, if_pos h]
          have hplen := pat_length_pos h.1
          have hlen : (List.drop pat.length (c :: rest)).length ≤ n ∧
              (List.drop pat.length (c :: rest)).length ≤ m := by
            rw [List.length_drop]
            simp only [List.length_cons] at hn hm ⊢
            omega
          rw [ih m _ hlen.1 hlen.2]
        · rw [if_neg h, if_neg h]
          have hlen1 : rest.length ≤ n := by
            simp only [List.length_cons] at hn; omega
          have hlen2 : rest.length ≤ m := by
            simp only [List.length_cons] at hm; omega
          rw [ih m rest hlen1 hlen2]

theorem listReplace_nil (pat repl : List Char) : listReplace pat repl [] = [] := rfl

theorem listReplace_cons_pos (pat repl : List Char) (c : Char) (rest : List Char)
    (h : pat ≠ [] ∧ pat.isPrefixOf (c :: rest)) :
    listReplace pat repl (c :: rest)
      = repl ++ listReplace pat repl (List.drop pat.length (c :: rest)) := by
  unfold listReplace
  simp only [List.length_cons, listReplaceAux]
  rw [if_pos h]
  have hplen := pat_length_pos h.1
  have hlen : (List.drop pat.length (c :: rest)).length ≤ rest.length := by
    rw [List.length_drop]
    simp only [List.length_cons]
    omega
  rw [listReplaceAux_fuel pat repl rest.length _ _ hlen (le_refl _)]

theorem listReplace_cons_neg (pat repl : List Char) (c : Char) (rest : List Char)
    (h : ¬(pat ≠ [] ∧ pat.isPrefixOf (c :: rest))) :
    listReplace pat repl (c :: rest) = c :: listReplace pat repl rest := by
  unfold listReplace
  simp only [List.length_cons, listReplaceAux]
  rw [if_neg h]

/-- The token spelling without inner spaces. -/
def tokN (key : List Char) : List Char := '{' :: '{' :: (key ++ ['}', '}'])

/-- The token spelling with one space on each side of the key. -/
def tokS (key : List Char) : List Char := '{' :: '{' :: ' ' :: (key ++ [' ', '}', '}'])

/-- One substitution entry: replace the spaced spelling, then the unspaced
one (runner.py lines 123-124 and 126-127). -/
def replaceToken (key val t : List Char) : List Char :=
  listReplace (tokN key) val (listReplace (tokS key) val t)

inductive CtxVal
  | str (s : String)
  | dict (entries : List (String × String))
deriving DecidableEq

/-- The substitute closure over character lists: fold the context in
iteration order; dict values substitute dotted key.subkey tokens, other
values the bare key tokens. -/
def substituteChars (ctx : List (String × CtxVal)) (t : List Char) : List Char :=
  ctx.foldl (fun text kv =>
    match kv.2 with
    | .dict entries =>
      entries.foldl (fun text sub =>
        replaceToken (kv.1.data ++ '.' :: sub.1.data) sub.2.data text) text
    | .str v => replaceToken kv.1.data v.data text) t

/-- substitute(text): empty (or non-string, not modelled) text is returned
unchanged. -/
def substitute (ctx : List (String × CtxVal)) (text : String) : String :=
  if text = "" then text else ⟨substituteChars ctx text.data⟩

/-- The flat effective substitution entries in processing order. -/
def flattenCtx (ctx : List (String × CtxVal)) : List (List Char × List Char) :=
  ctx.flatMap (fun kv =>
    match kv.2 with
    | .dict entries =>
      entries.map (fun sub => (kv.1.data ++ '.' :: sub.1.data, sub.2.data))
    | .str v => [(kv.1.data, v.data)])

theorem substituteChars_eq_flat (ctx : List (String × CtxVal)) (t : List Char) :
    substituteChars ctx t
      = (flattenCtx ctx).foldl (fun text e => replaceToken e.1 e.2 text) t := by
  induction ctx generalizing t with
  | nil => rfl
  | cons kv ctx ih =>
    cases hv : kv.2 with
    | str v =>
      simp only [substituteChars, flattenCtx, List.flatMap_cons, List.foldl_cons, hv,
        List.foldl_append]
      exact ih _
    | dict entries =>
      simp only [substituteChars, flattenCtx, List.flatMap_cons, List.foldl_cons, hv,
        List.foldl_append, List.foldl_map]
      exact ih _

theorem isPrefixOf_eq_true_iff {l₁ l₂ : List Char} : l₁.isPrefixOf l₂ = true ↔ l₁ <+: l₂ :=
  List.isPrefixOf_iff_prefix

theorem listReplace_not_mem_head (p repl : List Char) :
    ∀ t : List Char, '{' ∉ t → listReplace ('{' :: p) repl t = t := by
  intro t
  induction t with
  | nil => intro _; rfl
  | cons c rest ih =>
    intro hmem
    rw [listReplace_cons_neg]
    · rw [ih (fun h => hmem (List.mem_cons_of_mem _ h))]
    · rintro ⟨-, hpre⟩
      rw [isPrefixOf_eq_true_iff] at hpre
      have hc := (List.cons_prefix_cons.mp hpre).1
      exact hmem (by rw [hc]; exact List.mem_cons_self _ _)

theorem listReplace_pass_append (p repl : List Char) (a b : List Char) (ha : '{' ∉ a) :
    listReplace ('{' :: p) repl (a ++ b) = a ++ listReplace ('{' :: p) repl b := by
  induction a with
  | nil => simp
  | cons c a ih =>
    have hc : ¬('{' = c) := fun he => ha (by rw [he]; exact List.mem_cons_self _ _)
    rw [List.cons_append, listReplace_cons_neg]
    · rw [ih (fun h => ha (List.mem_cons_of_mem _ h)), List.cons_append]
    · rintro ⟨-, hpre⟩
      rw [isPrefixOf_eq_true_iff] at hpre
      exact hc (List.cons_prefix_cons.mp hpre).1

theorem listReplace_head_match (pat repl rest : List Char) (h : pat ≠ []) :
    listReplace pat repl (pat ++ rest) = repl ++ listReplace pat repl rest := by
  cases hp : pat with
  | nil => exact absurd hp h
  | cons c p =>
    subst hp
    rw [List.cons_append, listReplace_cons_pos]
    · have hdrop : List.drop (c :: p).length (c :: (p ++ rest)) = rest := by
        rw [← List.cons_append, List.drop_left]
      rw [hdrop]
    · refine ⟨by simp, isPrefixOf_eq_true_iff.mpr ?_⟩
      rw [← List.cons_append]
      exact List.prefix_append _ _

theorem prefix_sep_key_eq (s : Char) :
    ∀ (k2 k r2 r : List Char), s ∉ k2 → s ∉ k →
      (k2 ++ s :: r2) <+: (k ++ s :: r) → k2 = k := by
  intro k2
  induction k2 with
  | nil =>
    intro k r2 r _ hk hpre
    cases k with
    | nil => rfl
    | cons c k' =>
      rw [List.nil_append, List.cons_append] at hpre
      have hc := (List.cons_prefix_cons.mp hpre).1
      have : s ∈ c :: k' := by rw [hc]; exact List.mem_cons_self _ _
      exact absurd this hk
  | cons c2 k2' ih =>
    intro k r2 r hk2 hk hpre
    cases k with
    | nil =>
      rw [List.cons_append, List.nil_append] at hpre
      have hc := (List.cons_prefix_cons.mp hpre).1
      have : s ∈ c2 :: k2' := by rw [← hc]; exact List.mem_cons_self _ _
      exact absurd this hk2
    | cons c k' =>
      rw [List.cons_append, List.cons_append] at hpre
      obtain ⟨hc, hrest⟩ := List.cons_prefix_cons.mp hpre
      rw [hc, ih k' r2 r (fun h => hk2 (List.mem_cons_of_mem _ h))
        (fun h => hk (List.mem_cons_of_mem _ h)) hrest]

/-- A usable substitution key: non-empty, free of braces and spaces. -/
def GoodKey (k : List Char) : Prop :=
  k ≠ [] ∧ '{' ∉ k ∧ '}' ∉ k ∧ ' ' ∉ k

instance (k : List Char) : Decidable (GoodKey k) :=
  inferInstanceAs (Decidable (k ≠ [] ∧ '{' ∉ k ∧ '}' ∉ k ∧ ' ' ∉ k))

/-- A non-matching token at the head of the text is walked over unchanged and
replacement continues on the rest, whatever the rest is. -/
theorem listReplace_token_step (midP midT repl post : List Char)
    (hnopre : ¬ midP <+: (midT ++ post))
    (hmid : '{' ∉ midT) (hmidne : midT ≠ []) :
    listReplace ('{' :: '{' :: midP) repl ('{' :: '{' :: (midT ++ post))
      = '{' :: '{' :: (midT ++ listReplace ('{' :: '{' :: midP) repl post) := by
  rw [listReplace_cons_neg]
  swap
  · rintro ⟨-, hpre⟩
    rw [isPrefixOf_eq_true_iff] at hpre
    exact hnopre (List.cons_prefix_cons.mp (List.cons_prefix_cons.mp hpre).2).2
  rw [listReplace_cons_neg]
  swap
  · rintro ⟨-, hpre⟩
    rw [isPrefixOf_eq_true_iff] at hpre
    obtain ⟨-, hpre2⟩ := List.cons_prefix_cons.mp hpre
    cases hmt : midT with
    | nil => exact hmidne hmt
    | cons c mt =>
      rw [hmt, List.cons_append] at hpre2
      have hc := (List.cons_prefix_cons.mp hpre2).1
      exact hmid (by rw [hmt, ← hc]; exact List.mem_cons_self _ _)
  rw [listReplace_pass_append _ _ _ _ hmid]

/-- Non-occurrence of an unspaced token of key k2 in a text headed by an
unspaced token of a different key k. -/
theorem nopre_tokN_tokN {k2 k : List Char} (post : List Char)
    (h2 : GoodKey k2) (hk : GoodKey k) (hne : k2 ≠ k) :
    ¬ (k2 ++ ['}', '}']) <+: ((k ++ ['}', '}']) ++ post) := by
  intro hpre
  rw [List.append_assoc] at hpre
  exact hne (prefix_sep_key_eq '}' k2 k ['}'] ('}' :: post) h2.2.2.1 hk.2.2.1 hpre)

/-- Non-occurrence of a spaced token of any key k2 in a text headed by an
unspaced token of a non-empty space-free key k. -/
theorem nopre_tokS_tokN {k2 k : List Char} (post : List Char)
    (hk : GoodKey k) :
    ¬ (' ' :: (k2 ++ [' ', '}', '}'])) <+: ((k ++ ['}', '}']) ++ post) := by
  intro hpre
  cases hkc : k with
  | nil => exact absurd hkc hk.1
  | cons c k' =>
    rw [hkc, List.cons_append, List.cons_append] at hpre
    have hc := (List.cons_prefix_cons.mp hpre).1
    have : ' ' ∈ c :: k' := by rw [hc]; exact List.mem_cons_self _ _
    rw [hkc] at hk
    exact absurd this hk.2.2.2

/-- Non-occurrence of an unspaced token of a non-empty space-free key k2 in a
text headed by a spaced token. -/
theorem nopre_tokN_tokS {k2 k : List Char} (post : List Char)
    (h2 : GoodKey k2) :
    ¬ (k2 ++ ['}', '}']) <+: ((' ' :: (k ++ [' ', '}', '}'])) ++ post) := by
  intro hpre
  cases hkc : k2 with
  | nil => exact absurd hkc h2.1
  | cons c2 k2' =>
    rw [hkc, List.cons_append, List.cons_append] at hpre
    have hc := (List.cons_prefix_cons.mp hpre).1
    have : ' ' ∈ c2 :: k2' := by rw [← hc]; exact List.mem_cons_self _ _
    rw [hkc] at h2
    exact absurd this h2.2.2.2

/-- Non-occurrence of a spaced token of key k2 in a text headed by a spaced
token of a different key k. -/
theorem nopre_tokS_tokS {k2 k : List Char} (post : List Char)
    (h2 : GoodKey k2) (hk : GoodKey k) (hne : k2 ≠ k) :
    ¬ (' ' :: (k2 ++ [' ', '}', '}'])) <+: ((' ' :: (k ++ [' ', '}', '}'])) ++ post) := by
  intro hpre
  rw [List.cons_append] at hpre
  obtain ⟨-, hpre2⟩ := List.cons_prefix_cons.mp hpre
  rw [List.append_assoc] at hpre2
  have := prefix_sep_key_eq ' ' k2 k ['}', '}'] (['}', '}'] ++ post)
    h2.2.2.2 hk.2.2.2 (by simpa using hpre2)
  exact hne this

theorem not_brace_mem_tokN_mid {k : List Char} (hk : GoodKey k) :
    '{' ∉ k ++ ['}', '}'] := by
  intro hmem
  rcases List.mem_append.mp hmem with h | h
  · exact hk.2.1 h
  · simp at h

theorem not_brace_mem_tokS_mid {k : List Char} (hk : GoodKey k) :
    '{' ∉ ' ' :: (k ++ [' ', '}', '}']) := by
  intro hmem
  rcases List.mem_cons.mp hmem with h | h
  · exact absurd h (by decide)
  · rcases List.mem_append.mp h with h | h
    · exact hk.2.1 h
    · simp at h

theorem tokN_shape (k post : List Char) :
    tokN k ++ post = '{' :: '{' :: ((k ++ ['}', '}']) ++ post) := by
  simp [tokN]

theorem tokS_shape (k post : List Char) :
    tokS k ++ post = '{' :: '{' :: ((' ' :: (k ++ [' ', '}', '}'])) ++ post) := by
  simp [tokS]

theorem tokN_ne_nil (k : List Char) : tokN k ≠ [] := by simp [tokN]

theorem tokS_ne_nil (k : List Char) : tokS k ≠ [] := by simp [tokS]

/-- Walking over an unspaced token of key k with the unspaced pattern of a
different key k2 leaves the token intact and continues on the rest. -/
theorem step_skip_nn (k2 v2 k : List Char) (rest : List Char)
    (h2 : GoodKey k2) (hk : GoodKey k) (hne : k2 ≠ k) :
    listReplace (tokN k2) v2 (tokN k ++ rest)
      = tokN k ++ listReplace (tokN k2) v2 rest := by
  rw [tokN_shape]
  rw [show tokN k2 = '{' :: '{' :: (k2 ++ ['}', '}']) from rfl]
  rw [listReplace_token_step _ _ _ _ (nopre_tokN_tokN rest h2 hk hne)
    (not_brace_mem_tokN_mid hk) (by simp)]
  simp [tokN, List.cons_append, List.append_assoc]

/-- Walking over a spaced token of any key k with the unspaced pattern of a
key k2 leaves the token intact and continues on the rest. -/
theorem step_skip_ns (k2 v2 k : List Char) (rest : List Char)
    (h2 : GoodKey k2) (hk : GoodKey k) :
    listReplace (tokN k2) v2 (tokS k ++ rest)
      = tokS k ++ listReplace (tokN k2) v2 rest := by
  rw [tokS_shape]
  rw [show tokN k2 = '{' :: '{' :: (k2 ++ ['}', '}']) from rfl]
  rw [listReplace_token_step _ _ _ _ (nopre_tokN_tokS rest h2)
    (not_brace_mem_tokS_mid hk) (by simp)]
  simp [tokS, List.cons_append, List.append_assoc]

/-- Walking over an unspaced token of any key k with the spaced pattern of a
key k2 leaves the token intact and continues on the rest. -/
theorem step_skip_sn (k2 v2 k : List Char) (rest : List Char)
    (hk : GoodKey k) :
    listReplace (tokS k2) v2 (tokN k ++ rest)
      = tokN k ++ listReplace (tokS k2) v2 rest := by
  rw [tokN_shape]
  rw [show tokS k2 = '{' :: '{' :: (' ' :: (k2 ++ [' ', '}', '}'])) from rfl]
  rw [listReplace_token_step _ _ _ _ (nopre_tokS_tokN rest hk)
    (not_brace_mem_tokN_mid hk) (by simp)]
  simp [tokN, List.cons_append, List.append_assoc]

/-- Walking over a spaced token of key k with the spaced pattern of a
different key k2 leaves the token intact and continues on the rest. -/
theorem step_skip_ss (k2 v2 k : List Char) (rest : List Char)
    (h2 : GoodKey k2) (hk : GoodKey k) (hne : k2 ≠ k) :
    listReplace (tokS k2) v2 (tokS k ++ rest)
      = tokS k ++ listReplace (tokS k2) v2 rest := by
  rw [tokS_shape]
  rw [show tokS k2 = '{' :: '{' :: (' ' :: (k2 ++ [' ', '}', '}'])) from rfl]
  rw [listReplace_token_step _ _ _ _ (nopre_tokS_tokS rest h2 hk hne)
    (not_brace_mem_tokS_mid hk) (by simp)]
  simp [tokS, List.cons_append, List.append_assoc]

/-- Literal text that never contains two adjacent opening braces and does not
end in an opening brace.  Replacement patterns start with two opening braces,
so such text can never host or start a match, whatever follows it; single
braces (JSON bodies) are allowed. -/
def freeOK : List Char → Bool
  | [] => true
  | [c] => decide (c ≠ '{')
  | c :: c2 :: rest => decide (¬(c = '{' ∧ c2 = '{')) && freeOK (c2 :: rest)

theorem freeOK_of_no_brace (v : List Char) (h : '{' ∉ v) : freeOK v = true := by
  induction v with
  | nil => rfl
  | cons c rest ih =>
    cases rest with
    | nil =>
      simp only [freeOK, decide_eq_true_eq]
      intro hc
      exact h (by rw [hc]; exact List.mem_cons_self _ _)
    | cons c2 rest' =>
      simp only [freeOK, Bool.and_eq_true, decide_eq_true_eq]
      refine ⟨fun hand => h (by rw [hand.1]; exact List.mem_cons_self _ _), ?_⟩
      exact ih (fun hm => h (List.mem_cons_of_mem _ hm))

/-- Replacement passes over freeOK text unchanged and continues on whatever
follows. -/
theorem listReplace_pass_freeOK (p repl : List Char) :
    ∀ (a b : List Char), freeOK a = true →
      listReplace ('{' :: '{' :: p) repl (a ++ b)
        = a ++ listReplace ('{' :: '{' :: p) repl b := by
  intro a
  induction a with
  | nil => intro b _; simp
  | cons c a ih =>
    intro b hfree
    cases a with
    | nil =>
      simp only [freeOK, decide_eq_true_eq] at hfree
      rw [List.cons_append, List.nil_append, listReplace_cons_neg]
      · rfl
      · rintro ⟨-, hpre⟩
        rw [isPrefixOf_eq_true_iff] at hpre
        exact hfree (List.cons_prefix_cons.mp hpre).1.symm
    | cons c2 rest =>
      simp only [freeOK, Bool.and_eq_true, decide_eq_true_eq] at hfree
      obtain ⟨himp, htail⟩ := hfree
      rw [List.cons_append, listReplace_cons_neg]
      · rw [ih b htail]
        simp [List.cons_append]
      · rintro ⟨-, hpre⟩
        rw [isPrefixOf_eq_true_iff] at hpre
        obtain ⟨h1, hpre2⟩ := List.cons_prefix_cons.mp hpre
        rw [List.cons_append] at hpre2
        obtain ⟨h2, -⟩ := List.cons_prefix_cons.mp hpre2
        exact himp ⟨h1.symm, h2.symm⟩

/-- A template is an interleaving of literal text and tokens (either
spelling). -/
inductive Seg
  | free (s : List Char)
  | tok (spaced : Bool) (key : List Char)
deriving DecidableEq

def renderSeg : Seg → List Char
  | .free s => s
  | .tok false k => tokN k
  | .tok true k => tokS k

def renderSegs : List Seg → List Char
  | [] => []
  | s :: rest => renderSeg s ++ renderSegs rest

/-- Well-formed template piece: literal text is freeOK, token keys are
usable. -/
def SegOK : Seg → Prop
  | .free s => freeOK s = true
  | .tok _ k => GoodKey k

instance (s : Seg) : Decidable (SegOK s) := by
  cases s with
  | free s => exact inferInstanceAs (Decidable (freeOK s = true))
  | tok sp k => exact inferInstanceAs (Decidable (GoodKey k))

/-- Effect of one unspaced-pattern replace pass on a template piece. -/
def applyPassN (k2 v2 : List Char) : Seg → Seg
  | .tok false k => if k = k2 then .free v2 else .tok false k
  | s => s

/-- Effect of one spaced-pattern replace pass on a template piece. -/
def applyPassS (k2 v2 : List Char) : Seg → Seg
  | .tok true k => if k = k2 then .free v2 else .tok true k
  | s => s

theorem pass_tokN (k2 v2 : List Char) (h2 : GoodKey k2) :
    ∀ segs : List Seg, (∀ s ∈ segs, SegOK s) →
      listReplace (tokN k2) v2 (renderSegs segs)
        = renderSegs (segs.map (applyPassN k2 v2)) := by
  intro segs
  induction segs with
  | nil => intro _; rfl
  | cons s rest ih =>
    intro hok
    have hs : SegOK s := hok s (List.mem_cons_self _ _)
    have hrest : ∀ s ∈ rest, SegOK s := fun s h => hok s (List.mem_cons_of_mem _ h)
    cases s with
    | free a =>
      simp only [renderSegs, renderSeg, List.map_cons, applyPassN]
      rw [show tokN k2 = '{' :: '{' :: (k2 ++ ['}', '}']) from rfl]
      rw [listReplace_pass_freeOK _ _ _ _ hs]
      rw [show ('{' :: '{' :: (k2 ++ ['}', '}']) : List Char) = tokN k2 from rfl]
      rw [ih hrest]
    | tok sp k =>
      cases sp with
      | false =>
        by_cases hkk : k = k2
        · subst hkk
          have happ : applyPassN k v2 (Seg.tok false k) = Seg.free v2 := by
            simp [applyPassN]
          simp only [renderSegs, renderSeg, List.map_cons, happ]
          rw [listReplace_head_match _ _ _ (tokN_ne_nil k), ih hrest]
        · simp only [renderSegs, renderSeg, List.map_cons, applyPassN, if_neg hkk]
          rw [step_skip_nn k2 v2 k _ h2 hs (fun he => hkk he.symm), ih hrest]
      | true =>
        simp only [renderSegs, renderSeg, List.map_cons, applyPassN]
        rw [step_skip_ns k2 v2 k _ h2 hs, ih hrest]

theorem pass_tokS (k2 v2 : List Char) (h2 : GoodKey k2) :
    ∀ segs : List Seg, (∀ s ∈ segs, SegOK s) →
      listReplace (tokS k2) v2 (renderSegs segs)
        = renderSegs (segs.map (applyPassS k2 v2)) := by
  intro segs
  induction segs with
  | nil => intro _; rfl
  | cons s rest ih =>
    intro hok
    have hs : SegOK s := hok s (List.mem_cons_self _ _)
    have hrest : ∀ s ∈ rest, SegOK s := fun s h => hok s (List.mem_cons_of_mem _ h)
    cases s with
    | free a =>
      simp only [renderSegs, renderSeg, List.map_cons, applyPassS]
      rw [show tokS k2 = '{' :: '{' :: (' ' :: (k2 ++ [' ', '}', '}'])) from rfl]
      rw [listReplace_pass_freeOK _ _ _ _ hs]
      rw [show ('{' :: '{' :: (' ' :: (k2 ++ [' ', '}', '}'])) : List Char) = tokS k2 from rfl]
      rw [ih hrest]
    | tok sp k =>
      cases sp with
      | true =>
        by_cases hkk : k = k2
        · subst hkk
          have happ : applyPassS k v2 (Seg.tok true k) = Seg.free v2 := by
            simp [applyPassS]
          simp only [renderSegs, renderSeg, List.map_cons, happ]
          rw [listReplace_head_match _ _ _ (tokS_ne_nil k), ih hrest]
        · simp only [renderSegs, renderSeg, List.map_cons, applyPassS, if_neg hkk]
          rw [step_skip_ss k2 v2 k _ h2 hs (fun he => hkk he.symm), ih hrest]
      | false =>
        simp only [renderSegs, renderSeg, List.map_cons, applyPassS]
        rw [step_skip_sn k2 v2 k _ hs, ih hrest]

/-- Effect of processing one flat context entry (both patterns) on a template
piece: every token of that key, either spelling, becomes its value. -/
def applyEntrySeg (k v : List Char) : Seg → Seg
  | .tok sp k' => if k' = k then .free v else .tok sp k'
  | s => s

theorem applyPass_comp (k v : List Char) (s : Seg) :
    applyPassN k v (applyPassS k v s) = applyEntrySeg k v s := by
  cases s with
  | free a => rfl
  | tok sp k' =>
    cases sp with
    | false =>
      by_cases h : k' = k <;> simp [applyPassS, applyPassN, applyEntrySeg, h]
    | true =>
      by_cases h : k' = k <;> simp [applyPassS, applyPassN, applyEntrySeg, h]

theorem segOK_applyPassS (k v : List Char) (hv : '{' ∉ v) {s : Seg} (h : SegOK s) :
    SegOK (applyPassS k v s) := by
  cases s with
  | free a => exact h
  | tok sp k' =>
    cases sp with
    | false => exact h
    | true =>
      by_cases hk : k' = k
      · simp only [applyPassS, if_pos hk]
        exact freeOK_of_no_brace v hv
      · simp only [applyPassS, if_neg hk]
        exact h

theorem segOK_applyEntrySeg (k v : List Char) (hv : '{' ∉ v) {s : Seg} (h : SegOK s) :
    SegOK (applyEntrySeg k v s) := by
  cases s with
  | free a => exact h
  | tok sp k' =>
    by_cases hk : k' = k
    · simp only [applyEntrySeg, if_pos hk]
      exact freeOK_of_no_brace v hv
    · simp only [applyEntrySeg, if_neg hk]
      exact h

/-- One flat entry processed by replaceToken rewrites exactly the tokens of
its key, whatever else the template holds. -/
theorem replaceToken_segs (k v : List Char) (hk : GoodKey k) (hv : '{' ∉ v)
    (segs : List Seg) (hsegs : ∀ s ∈ segs, SegOK s) :
    replaceToken k v (renderSegs segs) = renderSegs (segs.map (applyEntrySeg k v)) := by
  unfold replaceToken
  rw [pass_tokS k v hk segs hsegs]
  rw [pass_tokN k v hk _ (by
    intro s hs
    obtain ⟨s0, hs0, hmap⟩ := List.mem_map.mp hs
    rw [← hmap]
    exact segOK_applyPassS k v hv (hsegs s0 hs0))]
  rw [List.map_map]
  have hfun : applyPassN k v ∘ applyPassS k v = applyEntrySeg k v :=
    funext (fun s => applyPass_comp k v s)
  rw [hfun]

/-- Folding all flat entries over a template. -/
theorem fold_entries_segs (entries : List (List Char × List Char))
    (hgood : ∀ e ∈ entries, GoodKey e.1) (hvals : ∀ e ∈ entries, '{' ∉ e.2) :
    ∀ segs : List Seg, (∀ s ∈ segs, SegOK s) →
      entries.foldl (fun t e => replaceToken e.1 e.2 t) (renderSegs segs)
        = renderSegs (entries.foldl (fun sg e => sg.map (applyEntrySeg e.1 e.2)) segs) := by
  induction entries with
  | nil => intro segs _; rfl
  | cons e entries ih =>
    intro segs hsegs
    rw [List.foldl_cons, List.foldl_cons,
      replaceToken_segs e.1 e.2 (hgood e (List.mem_cons_self _ _))
        (hvals e (List.mem_cons_self _ _)) segs hsegs]
    refine ih (fun e' h => hgood e' (List.mem_cons_of_mem _ h))
      (fun e' h => hvals e' (List.mem_cons_of_mem _ h)) _ ?_
    intro s hs
    obtain ⟨s0, hs0, hmap⟩ := List.mem_map.mp hs
    rw [← hmap]
    exact segOK_applyEntrySeg e.1 e.2 (hvals e (List.mem_cons_self _ _)) (hsegs s0 hs0)

/-- First-match lookup among the flat entries (dict keys are unique, so this
is the entry of the key). -/
def lookupFlat : List (List Char × List Char) → List Char → Option (List Char)
  | [], _ => none
  | e :: rest, k => if e.1 = k then some e.2 else lookupFlat rest k

/-- Net effect of the whole substitution on one template piece. -/
def resolveSeg (entries : List (List Char × List Char)) : Seg → Seg
  | .tok sp k =>
    match lookupFlat entries k with
    | some v => .free v
    | none => .tok sp k
  | s => s

theorem fold_apply_eq_resolve (entries : List (List Char × List Char)) :
    ∀ segs : List Seg,
      entries.foldl (fun sg e => sg.map (applyEntrySeg e.1 e.2)) segs
        = segs.map (resolveSeg entries) := by
  induction entries with
  | nil =>
    intro segs
    rw [List.foldl_nil]
    have hid : resolveSeg [] = id := by
      funext s
      cases s with
      | free a => rfl
      | tok sp k => rfl
    rw [hid, List.map_id]
  | cons e entries ih =>
    intro segs
    rw [List.foldl_cons, ih, List.map_map]
    have hfun : resolveSeg entries ∘ applyEntrySeg e.1 e.2 = resolveSeg (e :: entries) := by
      funext s
      cases s with
      | free a => rfl
      | tok sp k =>
        by_cases h : k = e.1
        · simp [applyEntrySeg, resolveSeg, lookupFlat, h]
        · have h' : ¬ e.1 = k := fun he => h he.symm
          simp [applyEntrySeg, resolveSeg, lookupFlat, h, h']
    rw [hfun]

/-- Claim C9 (amended): provided every effective (dotted) context key is
non-empty and free of braces and spaces and no stringified value contains an
opening brace, substitution acts token-wise on any template that interleaves
literal text with key tokens: every token - either spelling - whose key has
a context entry is replaced by the stringified value of that entry (the
first, in context iteration order), and literal text and tokens whose key
matches no entry pass through unchanged.  Literal text may contain braces
(JSON bodies) as long as it never holds two adjacent opening braces and does
not end in an opening brace, which would fuse with adjacent pieces into new
token text.  Without the proviso on values the original claim fails by
double substitution (see the counterexample). -/
theorem C9_template_substitution_amended (ctx : List (String × CtxVal))
    (segs : List Seg)
    (hgood : ∀ e ∈ flattenCtx ctx, GoodKey e.1)
    (hvals : ∀ e ∈ flattenCtx ctx, '{' ∉ e.2)
    (hsegs : ∀ s ∈ segs, SegOK s) :
    substituteChars ctx (renderSegs segs)
      = renderSegs (segs.map (resolveSeg (flattenCtx ctx))) := by
  rw [substituteChars_eq_flat, fold_entries_segs (flattenCtx ctx) hgood hvals segs hsegs,
    fold_apply_eq_resolve]

/-- Claim C9 witness: a JSON-style template with two tokens (one dotted key
without spaces, one plain key with spaces) and an unknown-key token; both
known tokens are substituted, the braces of the literal text and the unknown
token pass through. -/
theorem C9_template_substitution_amended_witness :
    (∀ e ∈ flattenCtx [("job", .dict [("name", "movie")]), ("x", .str "1")], GoodKey e.1)
    ∧ (∀ e ∈ flattenCtx [("job", .dict [("name", "movie")]), ("x", .str "1")], '{' ∉ e.2)
    ∧ (∀ s ∈ [Seg.free "\x7b\"name\": \"".data, Seg.tok false "job.name".data,
        Seg.free "\", \"n\": ".data, Seg.tok true "x".data,
        Seg.tok false "missing".data, Seg.free "\x7d".data], SegOK s)
    ∧ substituteChars [("job", .dict [("name", "movie")]), ("x", .str "1")]
        (renderSegs [Seg.free "\x7b\"name\": \"".data, Seg.tok false "job.name".data,
          Seg.free "\", \"n\": ".data, Seg.tok true "x".data,
          Seg.tok false "missing".data, Seg.free "\x7d".data])
      = renderSegs ([Seg.free "\x7b\"name\": \"".data, Seg.tok false "job.name".data,
          Seg.free "\", \"n\": ".data, Seg.tok true "x".data,
          Seg.tok false "missing".data, Seg.free "\x7d".data].map
            (resolveSeg (flattenCtx [("job", .dict [("name", "movie")]), ("x", .str "1")]))) := by
  refine ⟨by decide, by decide, by decide, ?_⟩
  exact C9_template_substitution_amended
    [("job", .dict [("name", "movie")]), ("x", .str "1")]
    [Seg.free "\x7b\"name\": \"".data, Seg.tok false "job.name".data,
      Seg.free "\", \"n\": ".data, Seg.tok true "x".data,
      Seg.tok false "missing".data, Seg.free "\x7d".data]
    (by decide) (by decide) (by decide)

/-- Claim C9 counterexample: with context a mapped to the literal token text
for b (value written with escaped braces) and b mapped to 2, the template
holding only the token for a is rewritten to 2 by sequential replacement -
the inserted value is rescanned by the later entry - whereas the claim as
stated requires the output to be the stringified value of a itself. -/
theorem C9_double_substitution_counterexample :
    substitute [("a", .str "\x7b\x7bb\x7d\x7d"), ("b", .str "2")] "\x7b\x7ba\x7d\x7d" = "2"
    ∧ ("2" : String) ≠ "\x7b\x7bb\x7d\x7d" :=
  ⟨by decide, by decide⟩

end Grabarr
